import Mathlib

/-!
# Verification of the multimodal ingestion-filter-manifest pipeline

Shallow embedding of the core components of the standardisation pipeline
(manifest store, checkpoint store, deduplication store, sample codec,
worker pool, shard writer, and pipeline driver), together with proofs of
the testable properties stated in the design document.

Source files embedded (from `src/02-standardisation/`):
- `src/allowlist.py` and `src/core/allowlist.py` (manifest store),
- `filters/deduplication.py` (dedup hash store),
- `pipeline/schema.py` (sample model and codec),
- `pipeline/workers.py` and `src/workers.py` (worker pool),
- `pipeline/webdataset.py` (shard writer),
- `src/checkpoint.py` (checkpoint store),
- `pipeline/pipeline.py` (driver).

External libraries (SQLite, msgpack, PIL, tar) are modelled at the
contract level: SQLite tables as lists of rows in insertion order with
the statements' documented semantics, msgpack as an exact struct codec,
and PIL's image byte codec as an abstract pair of functions.
-/

set_option maxHeartbeats 1000000

namespace MMData

/-! ## Manifest store (allowlist)

`src/allowlist.py` (`AllowlistDB`): the table `allowlist(dataset_id, sample_id)`
has primary key `(dataset_id, sample_id)`; `add_batch` runs
`INSERT OR IGNORE` for each entry of the call, in list order, inside one
transaction.  We model the table as the list of its rows in insertion
order; `INSERT OR IGNORE` appends the row only when the key is absent.

`src/core/allowlist.py` (`AllowlistDB.add_batch`): same table, but the
statement is a plain `INSERT`; a duplicate primary key violates the
uniqueness constraint, the call raises and the transaction is rolled
back (table unchanged for that call). -/

variable {α : Type} [DecidableEq α]

/-- `INSERT OR IGNORE` of one row into the table. -/
def insertIgnore (t : List α) (p : α) : List α :=
  if p ∈ t then t else t ++ [p]

/-- `AllowlistDB.add_batch` of `src/allowlist.py`: `executemany` of
`INSERT OR IGNORE`, entries processed in list order. -/
def add_batch (t : List α) (entries : List α) : List α :=
  entries.foldl insertIgnore t

/-- Plain `INSERT` of `src/core/allowlist.py`: raises on a duplicate key. -/
def insertStrict (t : List α) (p : α) : Except Unit (List α) :=
  if p ∈ t then .error () else .ok (t ++ [p])

/-- `AllowlistDB.add_batch` of `src/core/allowlist.py`: plain `INSERT`s in one
transaction; the first duplicate raises and rolls the whole call back. -/
def add_batch_strict (t : List α) (entries : List α) : Except Unit (List α) :=
  match entries with
  | [] => .ok t
  | e :: rest =>
    match insertStrict t e with
    | .error _ => .error ()
    | .ok t' => add_batch_strict t' rest

/-- A sequence of `add_batch` calls against an initially empty table. -/
def add_batch_calls (calls : List (List α)) : List α :=
  calls.foldl add_batch []

/-! ## Deduplication store

`filters/deduplication.py` (`HashStore`): the table
`seen_hashes(img_hash PRIMARY KEY, dataset_id, sample_id)`;
`check_and_insert` runs `INSERT OR IGNORE` and returns `rowcount > 0`,
i.e. `true` exactly when the hash was absent and the row was inserted.
SQLite serialises the transactions, so any interleaving of workers is a
sequence of `check_and_insert` calls against the shared store. -/

/-- One row of `seen_hashes`: content hash with the first-seen owner. -/
structure HashRow where
  img_hash : String
  dataset_id : String
  sample_id : String
  deriving DecidableEq, Repr

/-- The hashes present in the store. -/
def hashKeys (store : List HashRow) : List String :=
  store.map HashRow.img_hash

/-- `HashStore.check_and_insert`: `INSERT OR IGNORE` on the `img_hash`
primary key; returns whether a row was inserted, together with the new
store contents. -/
def check_and_insert (store : List HashRow) (h d s : String) :
    Bool × List HashRow :=
  if h ∈ hashKeys store then (false, store)
  else (true, store ++ [⟨h, d, s⟩])

/-- Submit a sequence of same-hash samples (any serialisation of any
interleaving of workers): returns the verdicts in call order and the final
store. -/
def submitAll (store : List HashRow) (h : String) :
    List (String × String) → List Bool × List HashRow
  | [] => ([], store)
  | (d, s) :: rest =>
    let (b, store') := check_and_insert store h d s
    let (bs, store'') := submitAll store' h rest
    (b :: bs, store'')

/-! ## Sample model and codec

`pipeline/schema.py`: tagged sample variants `TextSample`, `ImageSample`,
`ImageTextSample` over `SampleMetadata(dataset_id: str, sample_id: int,
data: dict)`; `serialize` packs a `SerializedSample` msgspec struct and
`Sample.deserialize` unpacks it and rebuilds the variant via `to_sample`.
msgpack is modelled as an exact codec (the struct itself crosses the
boundary).  A PIL image is modelled as a mode string, an optional format
tag and an abstract pixel buffer; PIL's `save`/`open` byte codec and
`convert("RGB")` are parameters of the codec theorems. -/

/-- A PIL image: color mode, `image.format` tag, abstract pixel buffer. -/
structure PILImage where
  mode : String
  fmt : Option String
  pix : List Nat
  deriving DecidableEq, Repr

/-- `meta.data` attribute map (`dict[str, Any]`), modelled as string kv pairs. -/
abbrev AttrMap := List (String × String)

/-- `SampleMetadata` of `pipeline/schema.py`. -/
structure SampleMetadata where
  dataset_id : String
  sample_id : Nat
  data : AttrMap
  deriving DecidableEq, Repr

/-- The tagged sample variants of `pipeline/schema.py`. -/
inductive Sample where
  | text (meta : SampleMetadata) (text : String)
  | image (meta : SampleMetadata) (image : PILImage)
  | imageText (meta : SampleMetadata) (image : PILImage) (text : String)
  deriving DecidableEq, Repr

/-- The shared `meta` field of a sample. -/
def Sample.meta : Sample → SampleMetadata
  | .text m _ => m
  | .image m _ => m
  | .imageText m _ _ => m

/-- Python's `str.upper` (ASCII suffices for format tags). -/
def upperStr (s : String) : String := String.mk (s.data.map Char.toUpper)

/-- `fmt.upper() in ("JPEG", "JPG")` in `ImageSample.serialize`. -/
def jpegLike (f : String) : Bool :=
  upperStr f == "JPEG" || upperStr f == "JPG"

/-- The `SerializedSample` msgspec struct (`pipeline/schema.py`), with the
image payload type `β` abstract (PIL-encoded bytes). -/
structure SerializedSample (β : Type) where
  sample_type : String
  dataset_id : String
  sample_id : Nat
  meta_data : AttrMap
  text : Option String := none
  image_bytes : Option β := none
  image_format : Option String := none
  deriving DecidableEq, Repr

/-- The image-byte encoding step of `ImageSample.serialize` /
`ImageTextSample.serialize`: save at format `fmt`, flattening RGBA to RGB
first when the format is JPEG-like. -/
def encodeImageBytes {β : Type} (pilSave : PILImage → String → β)
    (convertRGB : PILImage → PILImage) (img : PILImage) (fmt : String) : β :=
  if jpegLike fmt ∧ img.mode = "RGBA" then pilSave (convertRGB img) fmt
  else pilSave img fmt

/-- `Sample.serialize` of `pipeline/schema.py`: build the
`SerializedSample` struct for the variant; for image variants the format
is `self.image.format or "PNG"`. -/
def serialize {β : Type} (pilSave : PILImage → String → β)
    (convertRGB : PILImage → PILImage) : Sample → SerializedSample β
  | .text m t =>
    { sample_type := "text", dataset_id := m.dataset_id,
      sample_id := m.sample_id, meta_data := m.data, text := some t }
  | .image m img =>
    let fmt := img.fmt.getD "PNG"
    { sample_type := "image", dataset_id := m.dataset_id,
      sample_id := m.sample_id, meta_data := m.data,
      image_bytes := some (encodeImageBytes pilSave convertRGB img fmt),
      image_format := some fmt }
  | .imageText m img t =>
    let fmt := img.fmt.getD "PNG"
    { sample_type := "image_text", dataset_id := m.dataset_id,
      sample_id := m.sample_id, meta_data := m.data, text := some t,
      image_bytes := some (encodeImageBytes pilSave convertRGB img fmt),
      image_format := some fmt }

/-- `SerializedSample.to_sample` of `pipeline/schema.py`: rebuild the
variant from the struct; the decoded image's `format` field is overwritten
with the struct's `image_format`.  Failed asserts and the unknown-tag
`ValueError` are the `CorruptSample` failures. -/
def to_sample {β : Type} (pilOpen : β → PILImage)
    (ss : SerializedSample β) : Except String Sample :=
  let meta : SampleMetadata :=
    ⟨ss.dataset_id, ss.sample_id, ss.meta_data⟩
  if ss.sample_type = "text" then
    match ss.text with
    | some t => .ok (.text meta t)
    | none => .error "assert self.text is not None"
  else if ss.sample_type = "image" then
    match ss.image_bytes with
    | some bs => .ok (.image meta { pilOpen bs with fmt := ss.image_format })
    | none => .error "assert self.image_bytes is not None"
  else if ss.sample_type = "image_text" then
    match ss.image_bytes, ss.text with
    | some bs, some t =>
      .ok (.imageText meta { pilOpen bs with fmt := ss.image_format } t)
    | _, _ => .error "assert"
  else .error "Unknown sample type"

/-- The supported image-format enumeration of the data model. -/
def supportedFormat (f : String) : Prop := f = "PNG" ∨ f = "JPEG"

/-- A valid sample: image variants carry a format tag from the supported
enumeration. -/
def validSample : Sample → Prop
  | .text _ _ => True
  | .image _ img => ∃ f, img.fmt = some f ∧ supportedFormat f
  | .imageText _ img _ => ∃ f, img.fmt = some f ∧ supportedFormat f

/-- Format-normalisation of a sample as stated by the codec round-trip
property: alpha flattening for JPEG-like formats (no other change); the
format tag stays the sample's own. -/
def normalizeSample (convertRGB : PILImage → PILImage) : Sample → Sample
  | .text m t => .text m t
  | .image m img =>
    let fmt := img.fmt.getD "PNG"
    let img' := if jpegLike fmt ∧ img.mode = "RGBA" then convertRGB img else img
    .image m { img' with fmt := some fmt }
  | .imageText m img t =>
    let fmt := img.fmt.getD "PNG"
    let img' := if jpegLike fmt ∧ img.mode = "RGBA" then convertRGB img else img
    .imageText m { img' with fmt := some fmt } t

/-! ## Worker pool

`pipeline/workers.py`: `_process_sample` deserialises the payload
*outside* any handler, then evaluates the filter chain inside a
`try`/`except` that turns a filter exception into a failed verdict
carrying the sample's own identifiers.  `WorkerPool.process_batch` maps
`_process_sample` over the serialised batch with `pool.map`, which
preserves input order and re-raises a worker exception in the driver.

`src/workers.py`: `_process_sample` runs *both* the deserialisation and
the filter loop inside one `try`/`except`; any exception yields a failed
verdict with synthetic empty identifiers (and the error message).

A filter is a fallible predicate `σ → Except String Bool` (an exception
is `.error`). -/

/-- Verdict record of `pipeline/workers.py` (`FilterResult`). -/
structure FilterResult where
  dataset_id : String
  sample_id : Nat
  passed : Bool
  deriving DecidableEq, Repr

/-- `all(f(sample) for f in _worker_filters)`: evaluate the chain in
declared order, short-circuiting on the first `false`; a filter exception
aborts the evaluation. -/
def evalFilters {σ : Type} : List (σ → Except String Bool) → σ →
    Except String Bool
  | [], _ => .ok true
  | f :: fs, s =>
    match f s with
    | .error e => .error e
    | .ok false => .ok false
    | .ok true => evalFilters fs s

/-- `_process_sample` of `pipeline/workers.py`: deserialise (outside the
handler — a corrupt payload propagates), then evaluate filters, catching
filter exceptions into a failed verdict with the sample's identifiers. -/
def process_sample_pipe {β : Type} (pilOpen : β → PILImage)
    (fs : List (Sample → Except String Bool)) (data : SerializedSample β) :
    Except String FilterResult :=
  match to_sample pilOpen data with
  | .error e => .error e
  | .ok s =>
    match evalFilters fs s with
    | .error _ => .ok ⟨s.meta.dataset_id, s.meta.sample_id, false⟩
    | .ok b => .ok ⟨s.meta.dataset_id, s.meta.sample_id, b⟩

/-- `WorkerPool.process_batch` of `pipeline/workers.py`: serialise each
sample, map the worker function over the payloads in input order; a
worker exception re-raises in the driver. -/
def process_batch_pool {β : Type} (pilSave : PILImage → String → β)
    (convertRGB : PILImage → PILImage) (pilOpen : β → PILImage)
    (fs : List (Sample → Except String Bool)) (batch : List Sample) :
    Except String (List FilterResult) :=
  (batch.map (serialize pilSave convertRGB)).mapM (process_sample_pipe pilOpen fs)

/-- Sample metadata of `src/schema.py` (string `sample_id`). -/
structure SrcMeta where
  dataset_id : String
  sample_id : String
  deriving DecidableEq, Repr

/-- Verdict record of `src/workers.py` (`FilterResult` with `error`). -/
structure SrcFilterResult where
  dataset_id : String
  sample_id : String
  passed : Bool
  error : Option String := none
  deriving DecidableEq, Repr

/-- The body of the `try` block of `_process_sample` in `src/workers.py`:
deserialise, then loop over the filters returning early on the first
rejection. -/
def runSrcSample {γ σ : Type} (metaOf : σ → SrcMeta)
    (deserialize : γ → Except String σ)
    (fs : List (σ → Except String Bool)) (data : γ) :
    Except String SrcFilterResult := do
  let s ← deserialize data
  let b ← evalFilters fs s
  pure ⟨(metaOf s).dataset_id, (metaOf s).sample_id, b, none⟩

/-- `_process_sample` of `src/workers.py`: the whole body runs under one
`try`/`except`; any exception yields a failed verdict with synthetic empty
identifiers. -/
def process_sample_src {γ σ : Type} (metaOf : σ → SrcMeta)
    (deserialize : γ → Except String σ)
    (fs : List (σ → Except String Bool)) (data : γ) : SrcFilterResult :=
  match runSrcSample metaOf deserialize fs data with
  | .ok r => r
  | .error e => ⟨"", "", false, some e⟩

/-! ## Shard writer

`pipeline/webdataset.py` (`WebDatasetSink`): rolling tar shards.
`open()` only creates the output directory; `_ensure_shard_open` lazily
opens `NNNNNN.tar` when a sample is about to be written; `write_batch`
writes each sample's entries, bumps the counters, and closes the shard
once either threshold is reached; `_close_shard` records the shard and
resets the counters; `close()` closes the current shard.  Shard byte
accounting follows `_add_bytes`: the sum of the entry payload sizes.
Entry byte sizes of the metadata JSON and the sink-encoded image are
abstract parameters; text is UTF-8. -/

/-- A closed shard on disk: its sample count and accumulated byte count. -/
structure ClosedShard where
  samples : Nat
  bytes : Nat
  deriving DecidableEq, Repr

/-- `WebDatasetSink` state: configuration-independent mutable fields plus
the shards already on disk. -/
structure SinkState where
  dirCreated : Bool := false
  tarOpen : Bool := false
  shard_idx : Nat := 0
  shard_sample_count : Nat := 0
  shard_bytes : Nat := 0
  total_samples : Nat := 0
  closedShards : List ClosedShard := []
  deriving DecidableEq, Repr

/-- The sink's initial state (`WebDatasetSink.__init__`). -/
def initSink : SinkState := {}

/-- `WebDatasetSink.open`: creates the output directory if absent;
touches nothing else. -/
def openSink (st : SinkState) : SinkState := { st with dirCreated := true }

/-- `WebDatasetSink._ensure_shard_open`: lazily create the shard file. -/
def ensure_shard_open (st : SinkState) : SinkState :=
  if st.tarOpen then st else { st with tarOpen := true }

/-- `WebDatasetSink._close_shard`: close the current tar (if open),
record it, advance the index, reset the per-shard counters. -/
def close_shard (st : SinkState) : SinkState :=
  if st.tarOpen then
    { st with
      tarOpen := false,
      closedShards := st.closedShards ++
        [⟨st.shard_sample_count, st.shard_bytes⟩],
      shard_idx := st.shard_idx + 1,
      shard_sample_count := 0,
      shard_bytes := 0 }
  else st

/-- Entry payload sizes a sample contributes (`_write_sample`): the
metadata JSON always, then text and/or the sink-encoded image by variant. -/
def sampleEntrySizes (jsonSize : AttrMap → Nat) (imgSize : PILImage → Nat) :
    Sample → List Nat
  | .text m t => [jsonSize m.data, t.utf8ByteSize]
  | .image m img => [jsonSize m.data, imgSize img]
  | .imageText m img t => [jsonSize m.data, imgSize img, t.utf8ByteSize]

/-- Total payload bytes of one sample's entries. -/
def sampleBytes (jsonSize : AttrMap → Nat) (imgSize : PILImage → Nat)
    (s : Sample) : Nat :=
  (sampleEntrySizes jsonSize imgSize s).sum

/-- `WebDatasetSink._write_sample`: `_add_bytes` for each entry
accumulates the payload sizes into `_shard_bytes`. -/
def write_sample (jsonSize : AttrMap → Nat) (imgSize : PILImage → Nat)
    (st : SinkState) (s : Sample) : SinkState :=
  { st with shard_bytes := st.shard_bytes + sampleBytes jsonSize imgSize s }

/-- One iteration of the `write_batch` loop: ensure a shard is open,
write the sample, bump the counters, then roll over if either the sample
count or the byte target has been reached. -/
def write_one (N B : Nat) (jsonSize : AttrMap → Nat)
    (imgSize : PILImage → Nat) (st : SinkState) (s : Sample) : SinkState :=
  let st1 := ensure_shard_open st
  let st2 := write_sample jsonSize imgSize st1 s
  let st3 := { st2 with
    shard_sample_count := st2.shard_sample_count + 1,
    total_samples := st2.total_samples + 1 }
  if N ≤ st3.shard_sample_count ∨ B ≤ st3.shard_bytes then close_shard st3
  else st3

/-- `WebDatasetSink.write_batch`. -/
def write_batch (N B : Nat) (jsonSize : AttrMap → Nat)
    (imgSize : PILImage → Nat) (st : SinkState) (samples : List Sample) :
    SinkState :=
  samples.foldl (write_one N B jsonSize imgSize) st

/-- `WebDatasetSink.close`. -/
def closeSink (st : SinkState) : SinkState := close_shard st

/-- A full sink run: `open()`, a sequence of `write_batch` calls, `close()`. -/
def sinkRun (N B : Nat) (jsonSize : AttrMap → Nat)
    (imgSize : PILImage → Nat) (batches : List (List Sample)) : SinkState :=
  closeSink (batches.foldl (write_batch N B jsonSize imgSize) (openSink initSink))

/-! ## Checkpoint store

`src/checkpoint.py` (`Checkpoint`): table
`progress(dataset_id PRIMARY KEY, last_sample_id, completed DEFAULT 0)`.
`update` upserts the resume pointer (`ON CONFLICT ... DO UPDATE SET
last_sample_id`, leaving `completed` unchanged; a fresh row gets
`completed = 0`); `mark_complete` runs `UPDATE progress SET completed = 1
WHERE dataset_id = ?` — it touches only an existing row.
`get_resume_point` returns completion, the pointer, or not-started.

The driver `pipeline/pipeline.py` holds integer sample ids, so the
pointer is a `Nat` here. -/

/-- One row of `progress`. -/
structure CkptRow where
  dataset_id : String
  last_sample_id : Option Nat
  completed : Bool
  deriving DecidableEq, Repr

/-- Table lookup by primary key. -/
def ckFind (t : List CkptRow) (ds : String) : Option CkptRow :=
  t.find? (fun r => r.dataset_id = ds)

/-- `Checkpoint.update`: upsert the resume pointer; `completed` is left
unchanged on conflict and defaults to `0` on insert. -/
def ck_update (t : List CkptRow) (ds : String) (lastId : Nat) : List CkptRow :=
  if (ckFind t ds).isSome then
    t.map (fun r => if r.dataset_id = ds
      then { r with last_sample_id := some lastId } else r)
  else t ++ [⟨ds, some lastId, false⟩]

/-- `Checkpoint.mark_complete`: `UPDATE ... SET completed = 1 WHERE
dataset_id = ?` — a no-op when the dataset has no `progress` row. -/
def mark_complete (t : List CkptRow) (ds : String) : List CkptRow :=
  t.map (fun r => if r.dataset_id = ds then { r with completed := true } else r)

/-- Result type of `Checkpoint.get_resume_point` (`str | bool`). -/
inductive ResumePoint where
  | notStarted
  | completedDataset
  | resumeFrom (lastId : Option Nat)
  deriving DecidableEq, Repr

/-- `Checkpoint.get_resume_point`. -/
def get_resume_point (t : List CkptRow) (ds : String) : ResumePoint :=
  match ckFind t ds with
  | none => .notStarted
  | some r => if r.completed then .completedDataset else .resumeFrom r.last_sample_id

/-- Modelled from the spec: `is_complete(dataset_id)` of the checkpoint
contract, used by `pipeline/pipeline.py` whose `pipeline/checkpoint.py` is
not among the sources; equals the completion half of
`src/checkpoint.py`'s `get_resume_point`. -/
def is_complete (t : List CkptRow) (ds : String) : Bool :=
  match ckFind t ds with
  | none => false
  | some r => r.completed

/-- Modelled from the spec: `resume_point`/`get_last_sample_id` of the
checkpoint contract, used by `pipeline/pipeline.py`; equals the pointer
half of `src/checkpoint.py`'s `get_resume_point`. -/
def get_last_sample_id (t : List CkptRow) (ds : String) : Option Nat :=
  match ckFind t ds with
  | none => none
  | some r => r.last_sample_id

/-! ## Pipeline driver

`pipeline/pipeline.py` (`Pipeline._scan_dataset` / `_process_batch`).
The driver asks the checkpoint for the resume point, streams the dataset
past it (`BaseDataset.stream(skip)` skips the first `skip` samples, per
`pipeline/base.py`), buffers batches of `batch_size`, and for each batch
commits in order: manifest `add_batch` of the accepted pairs, sink
`write_batch` of the accepted samples (when a sink is configured), then
`checkpoint.update` with the batch's last sample id; after exhaustion it
flushes the tail and calls `mark_complete`.

The worker pool is modelled as order-preserving pure evaluation of the
filter verdict (its fidelity is proved separately over
`pipeline/workers.py`).  Durable operations are recorded in an event
trace, each event tagged with its batch index. -/

/-- Durable operations the driver performs, tagged by batch index. -/
inductive Ev where
  | mAdd (i : Nat) (entries : List (String × Nat))
  | sWrite (i : Nat) (n : Nat)
  | ckUp (i : Nat) (lastId : Nat)
  | complete
  deriving DecidableEq, Repr

/-- Batch index of an event (`complete` has none). -/
def evTag : Ev → Option Nat
  | .mAdd i _ => some i
  | .sWrite i _ => some i
  | .ckUp i _ => some i
  | .complete => none

/-- Position of an event kind inside its batch's commit sequence:
manifest commit, then sink write, then checkpoint update. -/
def evRank : Ev → Nat
  | .mAdd _ _ => 0
  | .sWrite _ _ => 1
  | .ckUp _ _ => 2
  | .complete => 3

/-- Driver-visible durable state: the manifest rows, the checkpoint
table, and the trace of durable operations. -/
structure DrvState where
  manifest : List (String × Nat) := []
  ckpt : List CkptRow := []
  trace : List Ev := []
  deriving DecidableEq, Repr

/-- The accepted `(dataset_id, sample_id)` pairs of a batch, in input
order (`[(r.dataset_id, r.sample_id) for r in results if r.passed]`). -/
def passedEntries (verdict : Sample → Bool) (batch : List Sample) :
    List (String × Nat) :=
  ((batch.map (fun s => (⟨s.meta.dataset_id, s.meta.sample_id,
      verdict s⟩ : FilterResult))).filter
    (fun r => r.passed)).map (fun r => (r.dataset_id, r.sample_id))

/-- `Pipeline._process_batch`: commit the accepted pairs to the manifest,
then the accepted samples to the sink (when configured); nothing is
committed for a batch with no accepted pair. -/
def process_batchD (verdict : Sample → Bool) (hasSink : Bool) (i : Nat)
    (st : DrvState) (batch : List Sample) : DrvState :=
  let passed := passedEntries verdict batch
  if passed.isEmpty then st
  else
    { st with
      manifest := add_batch st.manifest passed,
      trace := st.trace ++ [.mAdd i passed] ++
        (if hasSink then [.sWrite i passed.length] else []) }

/-- The last sample id of a batch (`batch[-1].meta.sample_id`). -/
def lastIdOf (batch : List Sample) : Nat :=
  ((batch.getLast?).map (fun s => s.meta.sample_id)).getD 0

/-- One buffer-full step of `_scan_dataset`: process the batch, then
`checkpoint.update` with its last sample id. -/
def stepD (verdict : Sample → Bool) (hasSink : Bool) (ds : String)
    (st : DrvState) (pr : Nat × List Sample) : DrvState :=
  let st' := process_batchD verdict hasSink pr.1 st pr.2
  { st' with
    ckpt := ck_update st'.ckpt ds (lastIdOf pr.2),
    trace := st'.trace ++ [.ckUp pr.1 (lastIdOf pr.2)] }

/-- Process a sequence of indexed batches. -/
def scan_chunks (verdict : Sample → Bool) (hasSink : Bool) (ds : String)
    (st : DrvState) (prs : List (Nat × List Sample)) : DrvState :=
  prs.foldl (stepD verdict hasSink ds) st

/-- Split the stream into the driver's batches: the buffer is flushed as
soon as it holds `B` samples (one sample per batch when `B ≤ 1`), and the
nonempty tail is flushed at the end. -/
def chunk (B : Nat) : List Sample → List (List Sample)
  | [] => []
  | x :: xs => (x :: xs.take (B - 1)) :: chunk B (xs.drop (B - 1))
  termination_by l => l.length
  decreasing_by
    simp only [List.length_drop, List.length_cons]
    omega

/-- The skip count the driver derives from the checkpoint
(`skip = last_id + 1`, or stream from the start). -/
def resumeSkip (t : List CkptRow) (ds : String) : Nat :=
  match get_last_sample_id t ds with
  | some l => l + 1
  | none => 0

/-- `Pipeline._scan_dataset`: skip completed datasets; otherwise stream
past the checkpoint, process the batches in order, and mark the dataset
complete. -/
def scan_dataset (verdict : Sample → Bool) (hasSink : Bool) (ds : String)
    (samples : List Sample) (B : Nat) (st : DrvState) : DrvState :=
  if is_complete st.ckpt ds then st
  else
    let stream := samples.drop (resumeSkip st.ckpt ds)
    let st' := scan_chunks verdict hasSink ds st ((chunk B stream).enum)
    { st' with
      ckpt := mark_complete st'.ckpt ds,
      trace := st'.trace ++ [.complete] }

/-- The durable state left by a run that crashes right after the driver
has committed the checkpoint of the first `c` batches (each batch's
manifest commit precedes its checkpoint update, so the first `c` batches'
manifest rows are durable too). -/
def crashedState (verdict : Sample → Bool) (hasSink : Bool) (ds : String)
    (samples : List Sample) (B : Nat) (c : Nat) : DrvState :=
  scan_chunks verdict hasSink ds {} (((chunk B samples).take c).enum)

/-- The pass/fail outcome a worker derives from the filter chain: the
chain's verdict, with an exception treated as a rejection. -/
def passedOf (fs : List (Sample → Except String Bool)) (s : Sample) : Bool :=
  match evalFilters fs s with
  | .ok b => b
  | .error _ => false

/-- The `(dataset_id, sample_id)` pairs of the samples of `l` accepted by
the verdict, in input order. -/
def passedPairs (verdict : Sample → Bool) (l : List Sample) :
    List (String × Nat) :=
  (l.filter verdict).map (fun s => (s.meta.dataset_id, s.meta.sample_id))

/-- The block of durable events one batch contributes to the trace:
manifest commit and sink write (when there is something to commit),
then the checkpoint update. -/
def blockOf (verdict : Sample → Bool) (hasSink : Bool)
    (pr : Nat × List Sample) : List Ev :=
  (if (passedEntries verdict pr.2).isEmpty then []
   else [Ev.mAdd pr.1 (passedEntries verdict pr.2)] ++
     (if hasSink then [Ev.sWrite pr.1 (passedEntries verdict pr.2).length]
      else [])) ++
    [Ev.ckUp pr.1 (lastIdOf pr.2)]

/-- Invariant for the rollover bounds: the open shard is strictly below
both thresholds (rollover fires as soon as one is reached), a closed tar
never has more than `N` samples nor more than `B + M` bytes, and the
counters are reset while no tar is open. -/
def SinkInvBound (N B M : Nat) (st : SinkState) : Prop :=
  (st.tarOpen = false → st.shard_sample_count = 0 ∧ st.shard_bytes = 0) ∧
    (st.tarOpen = true → st.shard_sample_count < N ∧ st.shard_bytes < B) ∧
    (∀ c ∈ st.closedShards, c.samples ≤ N ∧ c.bytes ≤ B + M)

/-- Invariant for lazy file creation: an open tar already holds a sample,
closed tars hold at least one sample each, and the total sample count is
distributed over the shards. -/
def SinkInvFiles (st : SinkState) : Prop :=
  (st.tarOpen = false → st.shard_sample_count = 0 ∧ st.shard_bytes = 0) ∧
    (st.tarOpen = true → 1 ≤ st.shard_sample_count) ∧
    (∀ c ∈ st.closedShards, 1 ≤ c.samples) ∧
    st.total_samples =
      (st.closedShards.map ClosedShard.samples).sum + st.shard_sample_count

/-! ## Lemmas: manifest store -/

theorem mem_insertIgnore {t : List α} {p q : α} :
    q ∈ insertIgnore t p ↔ q ∈ t ∨ q = p := by
  unfold insertIgnore
  by_cases h : p ∈ t
  · simp only [if_pos h]
    constructor
    · exact Or.inl
    · rintro (hq | rfl) <;> assumption
  · simp [if_neg h]

theorem toFinset_insertIgnore (t : List α) (p : α) :
    (insertIgnore t p).toFinset = t.toFinset ∪ {p} := by
  ext q
  simp only [List.mem_toFinset, mem_insertIgnore, Finset.mem_union,
    Finset.mem_singleton]

theorem nodup_insertIgnore {t : List α} (h : t.Nodup) (p : α) :
    (insertIgnore t p).Nodup := by
  unfold insertIgnore
  by_cases hp : p ∈ t <;> simp [hp, List.nodup_append, h]

theorem nodup_add_batch {t : List α} (h : t.Nodup) (entries : List α) :
    (add_batch t entries).Nodup := by
  induction entries generalizing t with
  | nil => exact h
  | cons e rest ih => exact ih (nodup_insertIgnore h e)

theorem toFinset_add_batch (t : List α) (entries : List α) :
    (add_batch t entries).toFinset = t.toFinset ∪ entries.toFinset := by
  induction entries generalizing t with
  | nil => simp [add_batch]
  | cons e rest ih =>
    show (add_batch (insertIgnore t e) rest).toFinset = _
    rw [ih, toFinset_insertIgnore]
    ext q
    simp
    tauto

theorem toFinset_add_batch_calls (calls : List (List α)) :
    (add_batch_calls calls).toFinset = calls.flatten.toFinset := by
  show (calls.foldl add_batch []).toFinset = _
  suffices h : ∀ t : List α, (calls.foldl add_batch t).toFinset =
      t.toFinset ∪ calls.flatten.toFinset by
    simpa using h []
  induction calls with
  | nil => simp
  | cons c rest ih =>
    intro t
    simp only [List.foldl_cons, List.flatten_cons, ih, toFinset_add_batch]
    ext q
    simp only [Finset.mem_union, List.mem_toFinset, List.toFinset_append]
    tauto

theorem nodup_add_batch_calls (calls : List (List α)) :
    (add_batch_calls calls).Nodup := by
  show (calls.foldl add_batch []).Nodup
  suffices h : ∀ t : List α, t.Nodup → (calls.foldl add_batch t).Nodup by
    exact h [] List.nodup_nil
  induction calls with
  | nil => exact fun t h => h
  | cons c rest ih => exact fun t h => ih _ (nodup_add_batch h c)

/-! ## Lemmas: deduplication store -/

theorem check_and_insert_false_of_mem {store : List HashRow} {h : String}
    (hm : h ∈ hashKeys store) (d s : String) :
    check_and_insert store h d s = (false, store) := by
  simp [check_and_insert, hm]

/-- After the hash is present, every further same-hash submission is
rejected and the store is unchanged. -/
theorem submitAll_all_false {store : List HashRow} {h : String}
    (hm : h ∈ hashKeys store) (calls : List (String × String)) :
    submitAll store h calls = (calls.map fun _ => false, store) := by
  induction calls with
  | nil => rfl
  | cons c rest ih =>
    obtain ⟨d, s⟩ := c
    simp [submitAll, check_and_insert_false_of_mem hm, ih]

/-- When the hash is initially absent, the verdict vector accepts exactly
the first submission. -/
theorem submitAll_first_wins {store : List HashRow} {h : String}
    (hm : h ∉ hashKeys store) (d s : String)
    (rest : List (String × String)) :
    (submitAll store h ((d, s) :: rest)).1 =
      true :: (rest.map fun _ => false) := by
  have h1 : check_and_insert store h d s = (true, store ++ [⟨h, d, s⟩]) := by
    simp [check_and_insert, hm]
  have h2 : h ∈ hashKeys (store ++ [⟨h, d, s⟩]) := by simp [hashKeys]
  simp [submitAll, h1, submitAll_all_false h2]

/-! ## Lemmas: shard writer -/

section SinkLemmas

variable {N B M : Nat} {jsonSize : AttrMap → Nat} {imgSize : PILImage → Nat}

/-- Unfolding of one `write_batch` iteration: after `_ensure_shard_open`
the tar is open, so the rollover branch closes it with the bumped
counters recorded, and the other branch keeps it open. -/
theorem write_one_eq (st : SinkState) (s : Sample) :
    write_one N B jsonSize imgSize st s =
      if N ≤ st.shard_sample_count + 1 ∨
          B ≤ st.shard_bytes + sampleBytes jsonSize imgSize s then
        { st with
          tarOpen := false,
          shard_idx := st.shard_idx + 1,
          shard_sample_count := 0,
          shard_bytes := 0,
          total_samples := st.total_samples + 1,
          closedShards := st.closedShards ++
            [⟨st.shard_sample_count + 1,
              st.shard_bytes + sampleBytes jsonSize imgSize s⟩] }
      else
        { st with
          tarOpen := true,
          shard_sample_count := st.shard_sample_count + 1,
          shard_bytes := st.shard_bytes + sampleBytes jsonSize imgSize s,
          total_samples := st.total_samples + 1 } := by
  cases hto : st.tarOpen <;>
    simp [write_one, ensure_shard_open, write_sample, close_shard, hto]

theorem sinkInvBound_write_one (hN : 1 ≤ N) (hB : 1 ≤ B) {st : SinkState}
    {s : Sample} (hs : sampleBytes jsonSize imgSize s ≤ M)
    (h : SinkInvBound N B M st) :
    SinkInvBound N B M (write_one N B jsonSize imgSize st s) := by
  obtain ⟨hclosed0, hopen, hshards⟩ := h
  have hcount : st.shard_sample_count + 1 ≤ N := by
    cases hto : st.tarOpen with
    | false => have := hclosed0 hto; omega
    | true => have := hopen hto; omega
  have hbytes : st.shard_bytes + sampleBytes jsonSize imgSize s ≤ B + M := by
    cases hto : st.tarOpen with
    | false => have := hclosed0 hto; omega
    | true => have := hopen hto; omega
  rw [write_one_eq]
  split
  · refine ⟨fun _ => ⟨rfl, rfl⟩, by simp, ?_⟩
    intro c hc
    rcases List.mem_append.mp hc with hc | hc
    · exact hshards c hc
    · rcases List.mem_singleton.mp hc with rfl
      exact ⟨hcount, hbytes⟩
  · rename_i hcond
    push_neg at hcond
    exact ⟨by simp, fun _ => ⟨by dsimp only; omega, by dsimp only; omega⟩,
      hshards⟩

theorem sinkInvBound_write_batch (hN : 1 ≤ N) (hB : 1 ≤ B) {st : SinkState}
    {samples : List Sample}
    (hall : ∀ s ∈ samples, sampleBytes jsonSize imgSize s ≤ M)
    (h : SinkInvBound N B M st) :
    SinkInvBound N B M (write_batch N B jsonSize imgSize st samples) := by
  induction samples generalizing st with
  | nil => exact h
  | cons s rest ih =>
    exact ih (fun x hx => hall x (List.mem_cons_of_mem s hx))
      (sinkInvBound_write_one hN hB (hall s (List.mem_cons_self s rest)) h)

theorem sinkInvBound_close_shard {st : SinkState}
    (h : SinkInvBound N B M st) : SinkInvBound N B M (close_shard st) := by
  obtain ⟨hclosed0, hopen, hshards⟩ := h
  unfold close_shard
  cases hto : st.tarOpen with
  | false => exact ⟨hclosed0, hopen, hshards⟩
  | true =>
    have hb := hopen hto
    simp only [reduceIte]
    refine ⟨fun _ => ⟨rfl, rfl⟩, by simp, ?_⟩
    intro c hc
    rcases List.mem_append.mp hc with hc | hc
    · exact hshards c hc
    · rcases List.mem_singleton.mp hc with rfl
      exact ⟨by dsimp only; omega, by dsimp only; omega⟩

theorem sinkInvFiles_write_one {st : SinkState} (s : Sample)
    (h : SinkInvFiles st) :
    SinkInvFiles (write_one N B jsonSize imgSize st s) := by
  obtain ⟨hclosed0, hopen, hshards, htotal⟩ := h
  rw [write_one_eq]
  split
  · refine ⟨fun _ => ⟨rfl, rfl⟩, by simp, ?_, ?_⟩
    · intro c hc
      rcases List.mem_append.mp hc with hc | hc
      · exact hshards c hc
      · rcases List.mem_singleton.mp hc with rfl
        exact Nat.le_add_left 1 _
    · simp only [List.map_append, List.map_cons, List.map_nil,
        List.sum_append, List.sum_cons, List.sum_nil]
      omega
  · refine ⟨by simp, fun _ => ?_, hshards, ?_⟩
    · dsimp only
      omega
    · dsimp only
      omega

theorem sinkInvFiles_write_batch {st : SinkState} (samples : List Sample)
    (h : SinkInvFiles st) :
    SinkInvFiles (write_batch N B jsonSize imgSize st samples) := by
  induction samples generalizing st with
  | nil => exact h
  | cons s rest ih => exact ih (sinkInvFiles_write_one s h)

theorem sinkInvFiles_close_shard {st : SinkState} (h : SinkInvFiles st) :
    SinkInvFiles (close_shard st) := by
  obtain ⟨hclosed0, hopen, hshards, htotal⟩ := h
  unfold close_shard
  cases hto : st.tarOpen with
  | false => exact ⟨hclosed0, hopen, hshards, htotal⟩
  | true =>
    simp only [reduceIte]
    refine ⟨fun _ => ⟨rfl, rfl⟩, by simp, ?_, ?_⟩
    · intro c hc
      rcases List.mem_append.mp hc with hc | hc
      · exact hshards c hc
      · rcases List.mem_singleton.mp hc with rfl
        exact hopen hto
    · show st.total_samples =
        ((st.closedShards ++
            [ClosedShard.mk st.shard_sample_count st.shard_bytes]).map
          ClosedShard.samples).sum + 0
      rw [List.map_append, List.sum_append]
      simp only [List.map_cons, List.map_nil, List.sum_cons, List.sum_nil]
      omega

/-- `total_samples` counts exactly the samples written. -/
theorem total_samples_write_batch (st : SinkState) (samples : List Sample) :
    (write_batch N B jsonSize imgSize st samples).total_samples =
      st.total_samples + samples.length := by
  induction samples generalizing st with
  | nil => simp [write_batch]
  | cons s rest ih =>
    show (write_batch N B jsonSize imgSize
      (write_one N B jsonSize imgSize st s) rest).total_samples = _
    rw [ih]
    have hone : (write_one N B jsonSize imgSize st s).total_samples =
        st.total_samples + 1 := by
      rw [write_one_eq]
      split <;> rfl
    rw [hone]
    simp only [List.length_cons]
    omega

theorem sinkInvBound_openInit :
    SinkInvBound N B M (openSink initSink) := by
  refine ⟨fun _ => ⟨rfl, rfl⟩, fun h => ?_, fun c hc => ?_⟩
  · simp [openSink, initSink] at h
  · simp [openSink, initSink] at hc

theorem sinkInvFiles_openInit : SinkInvFiles (openSink initSink) := by
  refine ⟨fun _ => ⟨rfl, rfl⟩, fun h => ?_, fun c hc => ?_, rfl⟩
  · simp [openSink, initSink] at h
  · simp [openSink, initSink] at hc

theorem sinkInvBound_foldl (hN : 1 ≤ N) (hB : 1 ≤ B)
    {batches : List (List Sample)} {st : SinkState}
    (hall : ∀ b ∈ batches, ∀ s ∈ b, sampleBytes jsonSize imgSize s ≤ M)
    (h : SinkInvBound N B M st) :
    SinkInvBound N B M
      (batches.foldl (write_batch N B jsonSize imgSize) st) := by
  induction batches generalizing st with
  | nil => exact h
  | cons b rest ih =>
    exact ih (fun x hx => hall x (List.mem_cons_of_mem b hx))
      (sinkInvBound_write_batch hN hB
        (hall b (List.mem_cons_self b rest)) h)

theorem sinkInvFiles_foldl {batches : List (List Sample)} {st : SinkState}
    (h : SinkInvFiles st) :
    SinkInvFiles (batches.foldl (write_batch N B jsonSize imgSize) st) := by
  induction batches generalizing st with
  | nil => exact h
  | cons b rest ih => exact ih (sinkInvFiles_write_batch b h)

theorem tarOpen_close_shard (st : SinkState) :
    (close_shard st).tarOpen = false := by
  unfold close_shard
  cases hto : st.tarOpen with
  | false => simpa using hto
  | true => simp

theorem total_samples_close_shard (st : SinkState) :
    (close_shard st).total_samples = st.total_samples := by
  unfold close_shard
  cases st.tarOpen <;> simp

theorem total_samples_foldl (batches : List (List Sample)) (st : SinkState) :
    (batches.foldl (write_batch N B jsonSize imgSize) st).total_samples =
      st.total_samples + batches.flatten.length := by
  induction batches generalizing st with
  | nil => simp
  | cons b rest ih =>
    simp only [List.foldl_cons, List.flatten_cons, List.length_append]
    rw [ih, total_samples_write_batch]
    omega

theorem closed_nil_of_sum_zero (l : List ClosedShard)
    (hall : ∀ c ∈ l, 1 ≤ c.samples)
    (hsum : (l.map ClosedShard.samples).sum = 0) : l = [] := by
  cases l with
  | nil => rfl
  | cons c rest =>
    exfalso
    have h1 := hall c (List.mem_cons_self c rest)
    simp only [List.map_cons, List.sum_cons] at hsum
    omega

end SinkLemmas

/-! ## Lemmas: checkpoint store -/

theorem find?_append_of_none {p : CkptRow → Bool} {l₁ l₂ : List CkptRow}
    (h : l₁.find? p = none) : (l₁ ++ l₂).find? p = l₂.find? p := by
  induction l₁ with
  | nil => rfl
  | cons r rest ih =>
    cases hp : p r with
    | false =>
      have hp' : ¬p r = true := by simp [hp]
      rw [List.find?_cons_of_neg _ hp'] at h
      rw [List.cons_append, List.find?_cons_of_neg _ hp']
      exact ih h
    | true =>
      rw [List.find?_cons_of_pos _ hp] at h
      cases h

theorem dataset_id_ck_update_row (r : CkptRow) (ds : String) (i : Nat) :
    (if r.dataset_id = ds then { r with last_sample_id := some i }
      else r).dataset_id = r.dataset_id := by
  by_cases h : r.dataset_id = ds <;> simp [h]

theorem ckFind_ck_update (t : List CkptRow) (ds : String) (i : Nat) :
    ckFind (ck_update t ds i) ds =
      some ⟨ds, some i,
        match ckFind t ds with
        | some r => r.completed
        | none => false⟩ := by
  unfold ck_update
  cases hf : ckFind t ds with
  | some r =>
    simp only [Option.isSome_some, reduceIte]
    unfold ckFind at hf ⊢
    rw [List.find?_map]
    have hcomp : (fun r : CkptRow => decide (r.dataset_id = ds)) ∘
        (fun r : CkptRow => if r.dataset_id = ds
          then { r with last_sample_id := some i } else r) =
        fun r : CkptRow => decide (r.dataset_id = ds) := by
      funext r
      simp only [Function.comp_apply, dataset_id_ck_update_row]
    rw [hcomp, hf]
    have hds : r.dataset_id = ds := by
      have := List.find?_some hf
      simpa using this
    simp only [Option.map_some']
    rw [if_pos hds]
    simp [hds]
  | none =>
    simp only [Option.isSome_none, Bool.false_eq_true, reduceIte]
    unfold ckFind at hf ⊢
    rw [find?_append_of_none hf]
    simp

theorem get_last_ck_update (t : List CkptRow) (ds : String) (i : Nat) :
    get_last_sample_id (ck_update t ds i) ds = some i := by
  unfold get_last_sample_id
  rw [ckFind_ck_update]

theorem is_complete_ck_update (t : List CkptRow) (ds : String) (i : Nat) :
    is_complete (ck_update t ds i) ds = is_complete t ds := by
  unfold is_complete
  rw [ckFind_ck_update]
  cases ckFind t ds <;> rfl

/-! ## Lemmas: driver -/

section DriverLemmas

variable {verdict : Sample → Bool} {hasSink : Bool} {ds : String}

theorem meta_normalizeSample (conv : PILImage → PILImage) (s : Sample) :
    (normalizeSample conv s).meta = s.meta := by
  cases s <;> rfl

theorem passedEntries_eq (b : List Sample) :
    passedEntries verdict b = passedPairs verdict b := by
  unfold passedEntries passedPairs
  induction b with
  | nil => rfl
  | cons s rest ih =>
    cases hv : verdict s <;>
      simp only [List.map_cons, List.filter_cons, hv] <;>
      simpa [hv] using ih

theorem trace_stepD (st : DrvState) (pr : Nat × List Sample) :
    (stepD verdict hasSink ds st pr).trace =
      st.trace ++ blockOf verdict hasSink pr := by
  unfold stepD process_batchD blockOf
  by_cases hp : (passedEntries verdict pr.2).isEmpty <;>
    simp [hp]

theorem manifest_toFinset_stepD (st : DrvState) (pr : Nat × List Sample) :
    (stepD verdict hasSink ds st pr).manifest.toFinset =
      st.manifest.toFinset ∪ (passedPairs verdict pr.2).toFinset := by
  unfold stepD process_batchD
  by_cases hp : (passedEntries verdict pr.2).isEmpty
  · have hnil : passedEntries verdict pr.2 = [] := by
      simpa [List.isEmpty_iff] using hp
    rw [← passedEntries_eq, hnil]
    simp [hp]
  · simp only [hp, if_neg]
    rw [← passedEntries_eq]
    simp [toFinset_add_batch]

theorem ckpt_stepD (st : DrvState) (pr : Nat × List Sample) :
    (stepD verdict hasSink ds st pr).ckpt =
      ck_update st.ckpt ds (lastIdOf pr.2) := by
  unfold stepD process_batchD
  by_cases hp : (passedEntries verdict pr.2).isEmpty <;> simp [hp]

theorem passedPairs_append (l₁ l₂ : List Sample) :
    passedPairs verdict (l₁ ++ l₂) =
      passedPairs verdict l₁ ++ passedPairs verdict l₂ := by
  simp [passedPairs, List.filter_append]

theorem trace_scan_chunks (st : DrvState) (prs : List (Nat × List Sample)) :
    (scan_chunks verdict hasSink ds st prs).trace =
      st.trace ++ (prs.map (blockOf verdict hasSink)).flatten := by
  induction prs generalizing st with
  | nil => simp [scan_chunks]
  | cons pr rest ih =>
    show (scan_chunks verdict hasSink ds
      (stepD verdict hasSink ds st pr) rest).trace = _
    rw [ih, trace_stepD]
    simp [List.append_assoc]

theorem manifest_toFinset_scan_chunks (st : DrvState)
    (prs : List (Nat × List Sample)) :
    (scan_chunks verdict hasSink ds st prs).manifest.toFinset =
      st.manifest.toFinset ∪
        (passedPairs verdict (prs.map Prod.snd).flatten).toFinset := by
  induction prs generalizing st with
  | nil => simp [scan_chunks, passedPairs]
  | cons pr rest ih =>
    show (scan_chunks verdict hasSink ds
      (stepD verdict hasSink ds st pr) rest).manifest.toFinset = _
    rw [ih, manifest_toFinset_stepD]
    simp only [List.map_cons, List.flatten_cons, passedPairs_append,
      List.toFinset_append]
    rw [Finset.union_assoc]

theorem is_complete_scan_chunks (st : DrvState)
    (prs : List (Nat × List Sample)) :
    is_complete (scan_chunks verdict hasSink ds st prs).ckpt ds =
      is_complete st.ckpt ds := by
  induction prs generalizing st with
  | nil => rfl
  | cons pr rest ih =>
    show is_complete (scan_chunks verdict hasSink ds
      (stepD verdict hasSink ds st pr) rest).ckpt ds = _
    rw [ih, ckpt_stepD, is_complete_ck_update]

theorem get_last_scan_chunks (st : DrvState)
    {prs : List (Nat × List Sample)} {pr : Nat × List Sample}
    (hlast : prs.getLast? = some pr) :
    get_last_sample_id (scan_chunks verdict hasSink ds st prs).ckpt ds =
      some (lastIdOf pr.2) := by
  induction prs generalizing st with
  | nil => cases hlast
  | cons p rest ih =>
    cases rest with
    | nil =>
      have hpr : p = pr := by
        simpa [List.getLast?] using hlast
      subst hpr
      show get_last_sample_id (stepD verdict hasSink ds st p).ckpt ds = _
      rw [ckpt_stepD, get_last_ck_update]
    | cons r rs =>
      have hlast' : (r :: rs).getLast? = some pr := by
        rwa [List.getLast?_cons_cons] at hlast
      exact ih (stepD verdict hasSink ds st p) hlast'

theorem chunk_flatten_le (B : Nat) :
    ∀ (n : Nat) (l : List Sample), l.length ≤ n →
      (chunk B l).flatten = l := by
  intro n
  induction n with
  | zero =>
    intro l hl
    cases l with
    | nil => simp [chunk]
    | cons x xs => simp at hl
  | succ n ih =>
    intro l hl
    cases l with
    | nil => simp [chunk]
    | cons x xs =>
      rw [chunk]
      simp only [List.flatten_cons]
      rw [ih (xs.drop (B - 1))
        (by simp only [List.length_cons] at hl; simp only [List.length_drop]; omega)]
      simp [List.take_append_drop]

theorem chunk_flatten (B : Nat) (l : List Sample) :
    (chunk B l).flatten = l :=
  chunk_flatten_le B l.length l le_rfl

theorem chunk_ne_nil_le (B : Nat) :
    ∀ (n : Nat) (l : List Sample), l.length ≤ n →
      ∀ b ∈ chunk B l, b ≠ [] := by
  intro n
  induction n with
  | zero =>
    intro l hl b hb
    cases l with
    | nil => simp [chunk] at hb
    | cons x xs => simp at hl
  | succ n ih =>
    intro l hl b hb
    cases l with
    | nil => simp [chunk] at hb
    | cons x xs =>
      rw [chunk] at hb
      rcases List.mem_cons.mp hb with rfl | hb
      · simp
      · exact ih (xs.drop (B - 1))
          (by simp only [List.length_cons] at hl; simp only [List.length_drop]; omega)
          b hb

theorem chunk_ne_nil (B : Nat) (l : List Sample) :
    ∀ b ∈ chunk B l, b ≠ [] :=
  chunk_ne_nil_le B l.length l le_rfl

theorem blockOf_tag {pr : Nat × List Sample} :
    ∀ e ∈ blockOf verdict hasSink pr, evTag e = some pr.1 := by
  intro e he
  unfold blockOf at he
  rcases List.mem_append.mp he with h | h
  · by_cases hp : (passedEntries verdict pr.2).isEmpty
    · rw [if_pos hp] at h
      cases h
    · rw [if_neg hp] at h
      rcases List.mem_cons.mp h with rfl | h
      · rfl
      · by_cases hs : hasSink = true
        · rw [if_pos hs] at h
          rcases List.mem_singleton.mp h with rfl
          rfl
        · rw [if_neg hs] at h
          cases h
  · rcases List.mem_singleton.mp h with rfl
    rfl

theorem blockOf_rank_pairwise (pr : Nat × List Sample) :
    (blockOf verdict hasSink pr).Pairwise
      (fun a b => evRank a < evRank b) := by
  unfold blockOf
  by_cases hp : (passedEntries verdict pr.2).isEmpty <;>
    by_cases hs : hasSink = true <;>
    simp [hp, hs, evRank]

theorem tag_mem_flatten {prs : List (Nat × List Sample)} {e : Ev}
    (he : e ∈ (prs.map (blockOf verdict hasSink)).flatten) {i : Nat}
    (ht : evTag e = some i) : i ∈ prs.map Prod.fst := by
  rcases List.mem_flatten.mp he with ⟨bk, hbk, hebk⟩
  rcases List.mem_map.mp hbk with ⟨p, hp, rfl⟩
  have htag := blockOf_tag e hebk
  rw [ht] at htag
  have : i = p.1 := Option.some_injective _ htag
  subst this
  exact List.mem_map_of_mem Prod.fst hp

/-- Ordering of durable events in a driver trace: if the trace is a
concatenation of per-batch blocks (with pairwise-distinct batch tags)
followed by untagged events, then any two events of the same batch occur
in commit order (manifest, then sink write, then checkpoint update). -/
theorem flatten_block_order :
    ∀ (prs : List (Nat × List Sample)) (tail : List Ev),
      (∀ e ∈ tail, evTag e = none) →
      (prs.map Prod.fst).Nodup →
      ∀ {m n : Nat} {e₁ e₂ : Ev} {i : Nat},
        ((prs.map (blockOf verdict hasSink)).flatten ++ tail)[m]? =
          some e₁ →
        ((prs.map (blockOf verdict hasSink)).flatten ++ tail)[n]? =
          some e₂ →
        evTag e₁ = some i → evTag e₂ = some i →
        evRank e₁ < evRank e₂ → m < n := by
  intro prs
  induction prs with
  | nil =>
    intro tail htail _ m n e₁ e₂ i h₁ h₂ ht₁ ht₂ _
    simp only [List.map_nil, List.flatten_nil, List.nil_append] at h₁
    rw [htail e₁ (List.getElem?_mem h₁)] at ht₁
    cases ht₁
  | cons p rest ih =>
    intro tail htail hnodup m n e₁ e₂ i h₁ h₂ ht₁ ht₂ hrank
    have hnodup' : (rest.map Prod.fst).Nodup :=
      (List.nodup_cons.mp (by simpa using hnodup)).2
    have hptag : p.1 ∉ rest.map Prod.fst :=
      (List.nodup_cons.mp (by simpa using hnodup)).1
    set L := blockOf verdict hasSink p with hL
    have hsplit : ((p :: rest).map (blockOf verdict hasSink)).flatten ++ tail
        = L ++ ((rest.map (blockOf verdict hasSink)).flatten ++ tail) := by
      simp [List.append_assoc]
    rw [hsplit] at h₁ h₂
    rw [List.getElem?_append] at h₁ h₂
    by_cases hm : m < L.length
    · rw [if_pos hm] at h₁
      by_cases hn : n < L.length
      · rw [if_pos hn] at h₂
        obtain ⟨hm', he₁⟩ := List.getElem?_eq_some.mp h₁
        obtain ⟨hn', he₂⟩ := List.getElem?_eq_some.mp h₂
        by_contra hcon
        push_neg at hcon
        rcases Nat.lt_or_ge n m with hlt | hge
        · have := List.pairwise_iff_getElem.mp
            (blockOf_rank_pairwise p) n m hn' hm' hlt
          rw [he₁, he₂] at this
          omega
        · have : m = n := by omega
          subst this
          rw [he₁] at he₂
          subst he₂
          omega
      · omega
    · rw [if_neg hm] at h₁
      push_neg at hm
      have he₁mem : e₁ ∈ (rest.map (blockOf verdict hasSink)).flatten := by
        have hmem := List.getElem?_mem h₁
        rcases List.mem_append.mp hmem with h | h
        · exact h
        · rw [htail e₁ h] at ht₁; cases ht₁
      have hi : i ∈ rest.map Prod.fst := tag_mem_flatten he₁mem ht₁
      by_cases hn : n < L.length
      · rw [if_pos hn] at h₂
        have he₂mem : e₂ ∈ L := List.getElem?_mem h₂
        have := blockOf_tag e₂ he₂mem
        rw [ht₂] at this
        have : i = p.1 := Option.some_injective _ this
        subst this
        exact absurd hi hptag
      · rw [if_neg hn] at h₂
        push_neg at hn
        have := ih tail htail hnodup' h₁ h₂ ht₁ ht₂ hrank
        omega

theorem flatten_getLast? {P : List (List Sample)}
    (hne : ∀ b ∈ P, b ≠ []) {b : List Sample} (hlast : P.getLast? = some b) :
    P.flatten.getLast? = b.getLast? := by
  induction P with
  | nil => cases hlast
  | cons b₀ rest ih =>
    cases rest with
    | nil =>
      have hb : b₀ = b := by simpa [List.getLast?] using hlast
      subst hb
      simp
    | cons r rs =>
      have hlast' : (r :: rs).getLast? = some b := by
        rwa [List.getLast?_cons_cons] at hlast
      have hbne : b ≠ [] := by
        refine hne b (List.mem_cons_of_mem b₀ ?_)
        obtain ⟨hhh, hb⟩ := List.mem_getLast?_eq_getLast
          (show b ∈ (r :: rs).getLast? from hlast')
        exact hb ▸ List.getLast_mem hhh
      have hx : b.getLast? = some (b.getLast hbne) :=
        List.getLast?_eq_getLast_of_ne_nil hbne
      rw [List.flatten_cons, List.getLast?_append,
        ih (fun y hy => hne y (List.mem_cons_of_mem b₀ hy)) hlast', hx]
      rfl

theorem scan_dataset_nil (dsid : String) (B : Nat) (st : DrvState)
    (hnc : ¬is_complete st.ckpt dsid = true) :
    scan_dataset verdict hasSink dsid [] B st =
      { st with
        ckpt := mark_complete st.ckpt dsid,
        trace := st.trace ++ [.complete] } := by
  unfold scan_dataset
  rw [if_neg hnc]
  have h0 : chunk B ([] : List Sample) = [] := by simp [chunk]
  simp [List.drop_nil, h0, scan_chunks]

end DriverLemmas

end MMData

/-- C3 (amended part): with the `INSERT OR IGNORE` implementation of
`src/allowlist.py`, every `add_batch` call succeeds (the operation is total)
and after any sequence of calls the number of rows in the allowlist table
equals the number of distinct `(dataset_id, sample_id)` pairs in the
concatenation of the calls' argument lists. -/
theorem C3_add_batch_idempotent (calls : List (List (String × String))) :
    (MMData.add_batch_calls calls).length = calls.flatten.toFinset.card := by
  rw [← MMData.toFinset_add_batch_calls]
  exact (List.toFinset_card_of_nodup (MMData.nodup_add_batch_calls calls)).symm

/-- C3 (counterexample): with the plain-`INSERT` implementation of
`src/core/allowlist.py`, a second `add_batch` call repeating an
already-inserted `(dataset_id, sample_id)` pair does not succeed: it raises a
uniqueness violation (modelled as `Except.error`), contradicting the claim
that every call succeeds with duplicates silently ignored. -/
theorem C3_strict_insert_fails :
    MMData.add_batch_strict (MMData.add_batch_calls [[("ds", "0")]])
      [("ds", "0")] = .error () := by
  rfl

/-- C4 (amended): among any multiset of samples with the same content hash
submitted to the dedup filter, across any serialisation of the workers'
atomic `check_and_insert` calls, exactly one is accepted — the first — and
`check_and_insert` returns `true` iff the hash was not previously present
and was just inserted.  A subsequent run that re-submits the winning
`(hash, dataset_id, sample_id)` is rejected (`check_and_insert` returns
`false` because the hash is already present): acceptance is exactly-once
across runs, not idempotent per sample. -/
theorem C4_dedup_unique {store : List MMData.HashRow} {h : String}
    (hm : h ∉ MMData.hashKeys store) (d s : String)
    (rest : List (String × String)) :
    (MMData.submitAll store h ((d, s) :: rest)).1 =
        true :: (rest.map fun _ => false) ∧
      ((MMData.submitAll store h ((d, s) :: rest)).1.count true = 1) ∧
      (MMData.check_and_insert
        (MMData.submitAll store h ((d, s) :: rest)).2 h d s).1 = false := by
  refine ⟨MMData.submitAll_first_wins hm d s rest, ?_, ?_⟩
  · rw [MMData.submitAll_first_wins hm d s rest]
    simp [List.count_cons, List.count_eq_zero]
  · have h1 : MMData.check_and_insert store h d s =
        (true, store ++ [⟨h, d, s⟩]) := by
      simp [MMData.check_and_insert, hm]
    have h2 : h ∈ MMData.hashKeys (store ++ [⟨h, d, s⟩]) := by
      simp [MMData.hashKeys]
    have h3 : (MMData.submitAll store h ((d, s) :: rest)).2 =
        store ++ [⟨h, d, s⟩] := by
      simp [MMData.submitAll, h1, MMData.submitAll_all_false h2]
    rw [h3, MMData.check_and_insert_false_of_mem h2]

/-- C4 (witness): concrete instance of `C4_dedup_unique` — three samples
sharing hash `"h"` submitted to an empty store: only the first is accepted,
and re-submitting the winner afterwards returns `false`. -/
theorem C4_dedup_unique_witness :
    (MMData.submitAll [] "h" [("ds", "0"), ("ds", "1"), ("ds", "2")]).1 =
        [true, false, false] ∧
      ((MMData.submitAll [] "h"
        [("ds", "0"), ("ds", "1"), ("ds", "2")]).1.count true = 1) ∧
      (MMData.check_and_insert
        (MMData.submitAll [] "h" [("ds", "0"), ("ds", "1"), ("ds", "2")]).2
        "h" "ds" "0").1 = false := by
  have hm : "h" ∉ MMData.hashKeys ([] : List MMData.HashRow) := by
    simp [MMData.hashKeys]
  simpa using C4_dedup_unique hm "ds" "0" [("ds", "1"), ("ds", "2")]

/-- C4 (counterexample): the claim asserts that a subsequent run
re-submitting the winning `(hash, dataset_id, sample_id)` is again accepted;
in the code `check_and_insert` returns `rowcount > 0` of an
`INSERT OR IGNORE`, which is `false` whenever the hash is already present —
even for the very sample that owns it. -/
theorem C4_resubmit_winner_rejected :
    (MMData.check_and_insert [] "h" "ds" "0").1 = true ∧
      (MMData.check_and_insert (MMData.check_and_insert [] "h" "ds" "0").2
        "h" "ds" "0").1 = false := by
  constructor <;> rfl

/-- The codec round-trip, as a reusable lemma: decoding the encoding of a
valid sample yields the format-normalised sample, for any exact PIL byte
codec. -/
theorem MMData.to_sample_serialize {β : Type}
    (pilSave : MMData.PILImage → String → β) (pilOpen : β → MMData.PILImage)
    (convertRGB : MMData.PILImage → MMData.PILImage)
    (hRT : ∀ img fmt, ¬(MMData.jpegLike fmt ∧ img.mode = "RGBA") →
      pilOpen (pilSave img fmt) = img)
    (hconv : ∀ img, (convertRGB img).mode = "RGB")
    (s : MMData.Sample) (hv : MMData.validSample s) :
    MMData.to_sample pilOpen (MMData.serialize pilSave convertRGB s) =
      .ok (MMData.normalizeSample convertRGB s) := by
  cases s with
  | text m t => rfl
  | image m img =>
    obtain ⟨f, hf, hsup⟩ := hv
    by_cases hc : MMData.jpegLike (img.fmt.getD "PNG") ∧ img.mode = "RGBA"
    · have hrt : pilOpen (pilSave (convertRGB img) (img.fmt.getD "PNG")) =
          convertRGB img := by
        refine hRT _ _ ?_
        rintro ⟨-, hmode⟩
        rw [hconv img] at hmode
        exact absurd hmode (by decide)
      simp [MMData.serialize, MMData.to_sample, MMData.encodeImageBytes,
        MMData.normalizeSample, hc, hrt]
    · have hrt : pilOpen (pilSave img (img.fmt.getD "PNG")) = img :=
        hRT _ _ hc
      simp [MMData.serialize, MMData.to_sample, MMData.encodeImageBytes,
        MMData.normalizeSample, hc, hrt]
  | imageText m img t =>
    obtain ⟨f, hf, hsup⟩ := hv
    by_cases hc : MMData.jpegLike (img.fmt.getD "PNG") ∧ img.mode = "RGBA"
    · have hrt : pilOpen (pilSave (convertRGB img) (img.fmt.getD "PNG")) =
          convertRGB img := by
        refine hRT _ _ ?_
        rintro ⟨-, hmode⟩
        rw [hconv img] at hmode
        exact absurd hmode (by decide)
      simp [MMData.serialize, MMData.to_sample, MMData.encodeImageBytes,
        MMData.normalizeSample, hc, hrt]
    · have hrt : pilOpen (pilSave img (img.fmt.getD "PNG")) = img :=
        hRT _ _ hc
      simp [MMData.serialize, MMData.to_sample, MMData.encodeImageBytes,
        MMData.normalizeSample, hc, hrt]


/-- C6: the sample codec is an exact round-trip: for every valid sample of
every variant (text, image, image+text) and every supported image format,
and for every PIL byte codec that is exact on format-compatible images
(`pilOpen ∘ pilSave = id` away from the RGBA/JPEG clash the encoder
avoids by flattening), decoding the encoded sample succeeds and returns
the sample up to format-normalisation: variant tag, `dataset_id`,
`sample_id`, metadata attributes and text are preserved exactly, and the
image is preserved in pixel content and format tag after alpha flattening
for JPEG. -/
theorem C6_codec_round_trip {β : Type}
    (pilSave : MMData.PILImage → String → β) (pilOpen : β → MMData.PILImage)
    (convertRGB : MMData.PILImage → MMData.PILImage)
    (hRT : ∀ img fmt, ¬(MMData.jpegLike fmt ∧ img.mode = "RGBA") →
      pilOpen (pilSave img fmt) = img)
    (hconv : ∀ img, (convertRGB img).mode = "RGB")
    (s : MMData.Sample) (hv : MMData.validSample s) :
    MMData.to_sample pilOpen (MMData.serialize pilSave convertRGB s) =
      .ok (MMData.normalizeSample convertRGB s) :=
  MMData.to_sample_serialize pilSave pilOpen convertRGB hRT hconv s hv

/-- C8 (amended): per-sample exceptions are confined in the workers that
catch them, but the two worker implementations differ from the claim: in
`src/workers.py` *any* exception — a filter error or an undecodable
payload — yields a failed verdict with synthetic empty identifiers (never
the sample's own), and processing continues; in `pipeline/workers.py` a
filter exception yields a failed verdict with the sample's own
identifiers, while an undecodable payload raises out of `_process_sample`
(deserialisation happens before the `try` block) instead of producing a
synthetic verdict. -/
theorem C8_exception_confinement :
    (∀ (γ σ : Type) (metaOf : σ → MMData.SrcMeta)
        (dec : γ → Except String σ) (fs : List (σ → Except String Bool))
        (data : γ) (s : σ) (e : String),
        dec data = .ok s → MMData.evalFilters fs s = .error e →
        MMData.process_sample_src metaOf dec fs data =
          ⟨"", "", false, some e⟩) ∧
      (∀ (γ σ : Type) (metaOf : σ → MMData.SrcMeta)
        (dec : γ → Except String σ) (fs : List (σ → Except String Bool))
        (data : γ) (e : String),
        dec data = .error e →
        MMData.process_sample_src metaOf dec fs data =
          ⟨"", "", false, some e⟩) ∧
      (∀ (β : Type) (pilOpen : β → MMData.PILImage)
        (fs : List (MMData.Sample → Except String Bool))
        (data : MMData.SerializedSample β) (s : MMData.Sample) (e : String),
        MMData.to_sample pilOpen data = .ok s →
        MMData.evalFilters fs s = .error e →
        MMData.process_sample_pipe pilOpen fs data =
          .ok ⟨s.meta.dataset_id, s.meta.sample_id, false⟩) ∧
      (∀ (β : Type) (pilOpen : β → MMData.PILImage)
        (fs : List (MMData.Sample → Except String Bool))
        (data : MMData.SerializedSample β) (e : String),
        MMData.to_sample pilOpen data = .error e →
        MMData.process_sample_pipe pilOpen fs data = .error e) := by
  refine ⟨?_, ?_, ?_, ?_⟩
  · intro γ σ metaOf dec fs data s e hdec hfil
    simp [MMData.process_sample_src, MMData.runSrcSample, hdec, hfil,
      Except.bind, Except.map, Bind.bind, Functor.map]
  · intro γ σ metaOf dec fs data e hdec
    simp [MMData.process_sample_src, MMData.runSrcSample, hdec,
      Except.bind, Except.map, Bind.bind, Functor.map]
  · intro β pilOpen fs data s e hdec hfil
    simp [MMData.process_sample_pipe, hdec, hfil]
  · intro β pilOpen fs data e hdec
    simp [MMData.process_sample_pipe, hdec]

/-- C8 (witness): `C8_exception_confinement` at concrete inputs — a filter
that raises on a decoded sample yields the synthetic verdict in the `src`
worker and the own-identifier failed verdict in the `pipeline` worker. -/
theorem C8_exception_confinement_witness :
    MMData.process_sample_src (γ := Unit) (σ := MMData.SrcMeta) id
        (fun _ => .ok ⟨"ds", "0"⟩) [fun _ => .error "boom"] () =
      ⟨"", "", false, some "boom"⟩ ∧
      MMData.process_sample_pipe (β := Unit) (fun _ => ⟨"RGB", none, []⟩)
          [fun _ => .error "boom"]
          ⟨"text", "ds", 5, [], some "txt", none, none⟩ =
        .ok ⟨"ds", 5, false⟩ :=
  ⟨C8_exception_confinement.1 Unit MMData.SrcMeta id
      (fun _ => .ok ⟨"ds", "0"⟩) [fun _ => .error "boom"] () ⟨"ds", "0"⟩
      "boom" rfl rfl,
    C8_exception_confinement.2.2.1 Unit (fun _ => ⟨"RGB", none, []⟩)
      [fun _ => .error "boom"] ⟨"text", "ds", 5, [], some "txt", none, none⟩
      (.text ⟨"ds", 5, []⟩ "txt") "boom" rfl rfl⟩

/-- C8 (counterexample): the claim requires a filter exception to produce
a verdict carrying the offending sample's own identifiers and an
undecodable payload to produce a synthetic failed verdict with processing
continuing; in `src/workers.py` a filter exception on a sample with
`dataset_id = "ds"` yields the synthetic verdict `("", "", false)` whose
identifiers are not the sample's own, and in `pipeline/workers.py` an
undecodable payload makes `_process_sample` raise (`Except.error`) instead
of returning any verdict. -/
theorem C8_counterexample :
    (MMData.process_sample_src (γ := Unit) (σ := MMData.SrcMeta) id
        (fun _ => .ok ⟨"ds", "0"⟩) [fun _ => .error "boom"] ()).dataset_id =
        "" ∧
      ("ds" : String) ≠ "" ∧
      MMData.process_sample_pipe (β := Unit) (fun _ => ⟨"RGB", none, []⟩)
          [] ⟨"bogus", "ds", 0, [], none, none, none⟩ =
        .error "Unknown sample type" := by
  refine ⟨rfl, by decide, rfl⟩

/-- C6 (witness): `C6_codec_round_trip` applied to a concrete RGBA
image+text sample with format `JPEG` under a concrete exact byte codec:
decoding the encoding yields the flattened sample. -/
theorem C6_codec_round_trip_witness :
    MMData.to_sample (β := MMData.PILImage) id
        (MMData.serialize (fun img _ => img)
          (fun img => { img with mode := "RGB" })
          (.imageText ⟨"ds", 7, [("language", "en")]⟩
            ⟨"RGBA", some "JPEG", [10, 20, 30]⟩ "caption")) =
      .ok (MMData.normalizeSample (fun img => { img with mode := "RGB" })
        (.imageText ⟨"ds", 7, [("language", "en")]⟩
          ⟨"RGBA", some "JPEG", [10, 20, 30]⟩ "caption")) :=
  C6_codec_round_trip (fun img _ => img) id
    (fun img => { img with mode := "RGB" })
    (fun _ _ _ => rfl) (fun _ => rfl) _
    ⟨"JPEG", rfl, Or.inr rfl⟩


/-- C5: for every run of the shard writer configured with
`samples_per_shard = N` and `target_shard_bytes = B` (both positive) and
any sequence of `write_batch` calls whose samples are each at most `M`
bytes, every closed shard contains at most `N` samples and no shard's
byte count — the sum of its entries' payload sizes, as accounted by
`_add_bytes` — exceeds `B + M`: rollover is checked only after each
sample is fully written. -/
theorem C5_rollover_bound (N B M : Nat) (jsonSize : MMData.AttrMap → Nat)
    (imgSize : MMData.PILImage → Nat) (batches : List (List MMData.Sample))
    (hN : 1 ≤ N) (hB : 1 ≤ B)
    (hM : ∀ b ∈ batches, ∀ s ∈ b,
      MMData.sampleBytes jsonSize imgSize s ≤ M) :
    ∀ c ∈ (MMData.sinkRun N B jsonSize imgSize batches).closedShards,
      c.samples ≤ N ∧ c.bytes ≤ B + M := by
  have hinv : MMData.SinkInvBound N B M
      (MMData.sinkRun N B jsonSize imgSize batches) :=
    MMData.sinkInvBound_close_shard
      (MMData.sinkInvBound_foldl hN hB hM MMData.sinkInvBound_openInit)
  exact hinv.2.2

/-- C5 (witness): `C5_rollover_bound` on a concrete run — one text sample
of 4 payload bytes with `N = 1`, `B = 3`, `M = 4` closes the single shard
`⟨1 sample, 4 bytes⟩`, within both bounds. -/
theorem C5_rollover_bound_witness :
    (MMData.ClosedShard.mk 1 4).samples ≤ 1 ∧
      (MMData.ClosedShard.mk 1 4).bytes ≤ 3 + 4 :=
  C5_rollover_bound 1 3 4 (fun _ => 2) (fun _ => 0)
    [[MMData.Sample.text ⟨"ds", 0, []⟩ "ab"]]
    (by decide) (by decide) (by decide)
    (MMData.ClosedShard.mk 1 4) (by decide)

/-- C10: the shard writer's `open()` changes the filesystem state only by
creating the output directory (no tar exists afterwards); a shard file is
created lazily when the first sample destined for it is written, so after
a full run every shard file on disk contains at least one sample, the
files' sample counts add up to exactly the samples written, and a run in
which no sample is written (including `close()` after zero writes)
produces no shard file at all. -/
theorem C10_lazy_shard_creation (N B : Nat) (jsonSize : MMData.AttrMap → Nat)
    (imgSize : MMData.PILImage → Nat) (batches : List (List MMData.Sample)) :
    (MMData.openSink MMData.initSink).closedShards = [] ∧
      (MMData.openSink MMData.initSink).tarOpen = false ∧
      (MMData.openSink MMData.initSink).dirCreated = true ∧
      (∀ c ∈ (MMData.sinkRun N B jsonSize imgSize batches).closedShards,
        1 ≤ c.samples) ∧
      (MMData.sinkRun N B jsonSize imgSize batches).tarOpen = false ∧
      ((MMData.sinkRun N B jsonSize imgSize batches).closedShards.map
          MMData.ClosedShard.samples).sum = batches.flatten.length ∧
      (batches.flatten = [] →
        (MMData.sinkRun N B jsonSize imgSize batches).closedShards = []) := by
  have hinv : MMData.SinkInvFiles
      (MMData.sinkRun N B jsonSize imgSize batches) :=
    MMData.sinkInvFiles_close_shard
      (MMData.sinkInvFiles_foldl MMData.sinkInvFiles_openInit)
  have hopen : (MMData.sinkRun N B jsonSize imgSize batches).tarOpen =
      false := MMData.tarOpen_close_shard _
  have hcnt0 : (MMData.sinkRun N B jsonSize imgSize batches).shard_sample_count
      = 0 := (hinv.1 hopen).1
  have htot : (MMData.sinkRun N B jsonSize imgSize batches).total_samples =
      batches.flatten.length := by
    show (MMData.close_shard _).total_samples = _
    rw [MMData.total_samples_close_shard, MMData.total_samples_foldl]
    show 0 + batches.flatten.length = _
    omega
  have hsum : ((MMData.sinkRun N B jsonSize imgSize batches).closedShards.map
      MMData.ClosedShard.samples).sum = batches.flatten.length := by
    have h4 := hinv.2.2.2
    rw [hcnt0] at h4
    omega
  refine ⟨rfl, rfl, rfl, hinv.2.2.1, hopen, hsum, fun hnil => ?_⟩
  refine MMData.closed_nil_of_sum_zero _ hinv.2.2.1 ?_
  rw [hsum, hnil]
  rfl

/-- C10 (witness): `C10_lazy_shard_creation` on a run of two empty
`write_batch` calls: zero samples are written and no shard file exists. -/
theorem C10_lazy_shard_creation_witness :
    (MMData.sinkRun 5 100 (fun _ => 1) (fun _ => 1)
        [[], []]).closedShards = [] ∧
      (MMData.sinkRun 5 100 (fun _ => 1) (fun _ => 1)
        [[], []]).tarOpen = false :=
  ⟨(C10_lazy_shard_creation 5 100 (fun _ => 1) (fun _ => 1)
      [[], []]).2.2.2.2.2.2 rfl,
    (C10_lazy_shard_creation 5 100 (fun _ => 1) (fun _ => 1)
      [[], []]).2.2.2.2.1⟩

/-- C9 (code bug evaluation): an adapter whose stream yields zero samples
leaves the checkpoint table without a `progress` row, because
`checkpoint.update` never ran; `mark_complete` is a bare SQL `UPDATE`
(`src/checkpoint.py:58-63`) that modifies only an existing row, so the
completed flag is never set: `is_complete` stays `false`
(`get_resume_point` reports not-started) and a subsequent run scans the
adapter again instead of skipping it.  With at least one sample (a
`progress` row exists) `mark_complete` does set the flag. -/
theorem C9_zero_sample_completion_bug :
    (MMData.scan_dataset (fun _ => true) false "ds" [] 4 {}).ckpt = [] ∧
      MMData.is_complete
          (MMData.scan_dataset (fun _ => true) false "ds" [] 4 {}).ckpt
          "ds" = false ∧
      MMData.get_resume_point
          (MMData.scan_dataset (fun _ => true) false "ds" [] 4 {}).ckpt
          "ds" = MMData.ResumePoint.notStarted ∧
      MMData.is_complete
          (MMData.scan_dataset (fun _ => true) false "ds"
            [MMData.Sample.text ⟨"ds", 0, []⟩ "t"] 4 {}).ckpt "ds" = true := by
  have hscan := @MMData.scan_dataset_nil (fun _ => true) false
    "ds" 4 {} (by simp [MMData.is_complete, MMData.ckFind])
  have hch : MMData.chunk 4 [MMData.Sample.text ⟨"ds", 0, []⟩ "t"] =
      [[MMData.Sample.text ⟨"ds", 0, []⟩ "t"]] := by
    simp [MMData.chunk]
  refine ⟨?_, ?_, ?_, ?_⟩
  · rw [hscan]
    rfl
  · rw [hscan]
    rfl
  · rw [hscan]
    rfl
  · simp only [MMData.scan_dataset, MMData.resumeSkip,
      MMData.get_last_sample_id, MMData.ckFind, List.find?_nil,
      List.drop_zero, hch]
    rfl

/-- C2: for every batch processed by the driver, the durable operations
occur in the strict order manifest commit (`add_batch` of the accepted
pairs), then sink `write_batch` (when a sink is configured), and only
then `checkpoint.update` with the batch's last sample id — a checkpoint
update is never executed before that batch's manifest commit.  The
driver's trace is exactly the per-batch commit blocks in batch order
(followed by the completion mark), every batch's events appear in it, and
any two same-batch events occur in commit-rank order. -/
theorem C2_commit_ordering (verdict : MMData.Sample → Bool) (hasSink : Bool)
    (ds : String) (l : List MMData.Sample) (B : Nat) :
    (MMData.scan_dataset verdict hasSink ds l B {}).trace =
        ((MMData.chunk B l).enum.map
          (MMData.blockOf verdict hasSink)).flatten ++
          [MMData.Ev.complete] ∧
      (∀ (m n : Nat) (e₁ e₂ : MMData.Ev) (i : Nat),
        (MMData.scan_dataset verdict hasSink ds l B {}).trace[m]? =
          some e₁ →
        (MMData.scan_dataset verdict hasSink ds l B {}).trace[n]? =
          some e₂ →
        MMData.evTag e₁ = some i → MMData.evTag e₂ = some i →
        MMData.evRank e₁ < MMData.evRank e₂ → m < n) ∧
      (∀ pr ∈ (MMData.chunk B l).enum,
        MMData.blockOf verdict hasSink pr ⊆
          (MMData.scan_dataset verdict hasSink ds l B {}).trace) := by
  have hic : ¬MMData.is_complete ([] : List MMData.CkptRow) ds = true := by
    simp [MMData.is_complete, MMData.ckFind]
  have h1 : (MMData.scan_dataset verdict hasSink ds l B {}).trace =
      ((MMData.chunk B l).enum.map
        (MMData.blockOf verdict hasSink)).flatten ++ [MMData.Ev.complete] := by
    unfold MMData.scan_dataset
    rw [if_neg hic]
    simp only [MMData.resumeSkip, MMData.get_last_sample_id, MMData.ckFind,
      List.find?_nil, List.drop_zero]
    rw [MMData.trace_scan_chunks]
    rfl
  refine ⟨h1, ?_, ?_⟩
  · intro m n e₁ e₂ i hm hn ht₁ ht₂ hr
    rw [h1] at hm hn
    refine MMData.flatten_block_order (MMData.chunk B l).enum
      [MMData.Ev.complete] ?_ ?_ hm hn ht₁ ht₂ hr
    · intro e he
      rcases List.mem_singleton.mp he with rfl
      rfl
    · rw [List.enum_map_fst]
      exact List.nodup_range _
  · intro pr hpr e he
    rw [h1]
    refine List.mem_append_left _ ?_
    exact List.mem_flatten.mpr
      ⟨MMData.blockOf verdict hasSink pr,
        List.mem_map_of_mem _ hpr, he⟩

/-- C2 (witness): `C2_commit_ordering` on a one-sample run with a sink:
the trace is manifest commit, sink write, checkpoint update, completion —
and the manifest commit of batch 0 (position 0) precedes the checkpoint
update of batch 0 (position 2). -/
theorem C2_commit_ordering_witness :
    (MMData.scan_dataset (fun _ => true) true "d"
        [MMData.Sample.text ⟨"d", 0, []⟩ "t"] 1 {}).trace[0]? =
        some (MMData.Ev.mAdd 0 [("d", 0)]) ∧
      (MMData.scan_dataset (fun _ => true) true "d"
        [MMData.Sample.text ⟨"d", 0, []⟩ "t"] 1 {}).trace[1]? =
        some (MMData.Ev.sWrite 0 1) ∧
      (MMData.scan_dataset (fun _ => true) true "d"
        [MMData.Sample.text ⟨"d", 0, []⟩ "t"] 1 {}).trace[2]? =
        some (MMData.Ev.ckUp 0 0) ∧
      (0 : Nat) < 2 := by
  have hch : MMData.chunk 1 [MMData.Sample.text ⟨"d", 0, []⟩ "t"] =
      [[MMData.Sample.text ⟨"d", 0, []⟩ "t"]] := by
    simp [MMData.chunk]
  have h1 := (C2_commit_ordering (fun _ => true) true "d"
    [MMData.Sample.text ⟨"d", 0, []⟩ "t"] 1).1
  rw [hch] at h1
  refine ⟨by rw [h1]; rfl, by rw [h1]; rfl, by rw [h1]; rfl, ?_⟩
  exact (C2_commit_ordering (fun _ => true) true "d"
      [MMData.Sample.text ⟨"d", 0, []⟩ "t"] 1).2.1 0 2
    (MMData.Ev.mAdd 0 [("d", 0)]) (MMData.Ev.ckUp 0 0) 0
    (by rw [h1]; rfl) (by rw [h1]; rfl) rfl rfl (by decide)

/-- C1: resume correctness.  For an adapter emitting a deterministic
sample sequence (`sample_id` equal to the emission index, as the driver's
`skip = last_id + 1` arithmetic requires), a run that crashes right after
committing the checkpoint of its first `c` batches (`k` samples),
followed by a resumed run, yields a manifest equal as a set to the
manifest of a single uninterrupted run; the resumed run starts streaming
exactly at the first sample after the checkpointed `last_sample_id`
(skip count `k`), and every skipped sample the filters accept is already
in the crashed run's manifest — no sample absent from the manifest is
skipped. -/
theorem C1_resume_correctness (verdict : MMData.Sample → Bool)
    (hasSink : Bool) (ds : String) (l : List MMData.Sample) (B c : Nat)
    (hIds : ∀ i : Fin l.length, (l.get i).meta.sample_id = i.val) :
    (MMData.scan_dataset verdict hasSink ds l B
        (MMData.crashedState verdict hasSink ds l B c)).manifest.toFinset =
        (MMData.scan_dataset verdict hasSink ds l B {}).manifest.toFinset ∧
      MMData.resumeSkip
          (MMData.crashedState verdict hasSink ds l B c).ckpt ds =
        ((MMData.chunk B l).take c).flatten.length ∧
      (∀ s ∈ l.take ((MMData.chunk B l).take c).flatten.length,
        verdict s = true →
          (s.meta.dataset_id, s.meta.sample_id) ∈
            (MMData.crashedState verdict hasSink ds l B c).manifest) := by
  classical
  set P := (MMData.chunk B l).take c with hP
  set R := (MMData.chunk B l).drop c with hR
  set k := P.flatten.length with hk
  have hsplit : P.flatten ++ R.flatten = l := by
    rw [← List.flatten_append, hP, hR, List.take_append_drop,
      MMData.chunk_flatten]
  have htake : l.take k = P.flatten := by
    conv_lhs => rw [← hsplit]
    exact List.take_left P.flatten R.flatten
  have hdrop : l.drop k = R.flatten := by
    conv_lhs => rw [← hsplit]
    exact List.drop_left P.flatten R.flatten
  have hklen : k ≤ l.length := by
    rw [← hsplit]
    simp [hk]
  have hmanifest : (MMData.crashedState verdict hasSink ds l B c).manifest.toFinset
      = (MMData.passedPairs verdict P.flatten).toFinset := by
    show (MMData.scan_chunks verdict hasSink ds {} P.enum).manifest.toFinset = _
    rw [MMData.manifest_toFinset_scan_chunks]
    rw [List.enum_map_snd]
    simp
  have hnotc : ¬MMData.is_complete
      (MMData.crashedState verdict hasSink ds l B c).ckpt ds = true := by
    show ¬MMData.is_complete
      (MMData.scan_chunks verdict hasSink ds {} P.enum).ckpt ds = true
    rw [MMData.is_complete_scan_chunks]
    simp [MMData.is_complete, MMData.ckFind]
  have hnotc0 : ¬MMData.is_complete ([] : List MMData.CkptRow) ds = true := by
    simp [MMData.is_complete, MMData.ckFind]
  have hskip : MMData.resumeSkip
      (MMData.crashedState verdict hasSink ds l B c).ckpt ds = k := by
    by_cases hPnil : P = []
    · show MMData.resumeSkip
        (MMData.scan_chunks verdict hasSink ds {} P.enum).ckpt ds = k
      rw [hPnil]
      simp [hk, hPnil, MMData.scan_chunks, MMData.resumeSkip,
        MMData.get_last_sample_id, MMData.ckFind]
    · have hlastP : P.getLast? = some (P.getLast hPnil) :=
        List.getLast?_eq_getLast_of_ne_nil hPnil
      obtain ⟨pr, hpr, hpr2⟩ := Option.map_eq_some'.mp
        (show P.enum.getLast?.map Prod.snd = some (P.getLast hPnil) by
          rw [← List.getLast?_map, List.enum_map_snd]
          exact hlastP)
      have hne : ∀ b ∈ P, b ≠ [] := by
        intro b hb
        exact MMData.chunk_ne_nil B l b (List.take_subset c _ hb)
      have hlastBne : P.getLast hPnil ≠ [] :=
        hne _ (List.getLast_mem hPnil)
      have hflast : P.flatten.getLast? = (P.getLast hPnil).getLast? :=
        MMData.flatten_getLast? hne hlastP
      have hk1 : 1 ≤ k := by
        rcases Nat.eq_zero_or_pos k with h0 | h1
        · exfalso
          have : P.flatten = [] := List.length_eq_zero.mp (hk ▸ h0)
          rw [this] at hflast
          rw [List.getLast?_eq_getLast_of_ne_nil hlastBne] at hflast
          cases hflast
        · exact h1
      have hkl : k - 1 < l.length := by omega
      have hgetl : l[k-1]? = some (l.get ⟨k - 1, hkl⟩) :=
        List.getElem?_eq_some.mpr ⟨hkl, rfl⟩
      have hlastsample : (P.getLast hPnil).getLast? =
          some (l.get ⟨k - 1, hkl⟩) := by
        rw [← hflast, ← htake, List.getLast?_eq_getElem?]
        have hlen : (l.take k).length = k := by
          rw [List.length_take]
          omega
        rw [hlen, List.getElem?_take_of_lt (by omega), hgetl]
      have hlastid : MMData.lastIdOf (P.getLast hPnil) = k - 1 := by
        unfold MMData.lastIdOf
        rw [hlastsample]
        simp only [Option.map_some', Option.getD_some]
        exact hIds ⟨k - 1, hkl⟩
      have hckl : MMData.get_last_sample_id
          (MMData.crashedState verdict hasSink ds l B c).ckpt ds =
            some (MMData.lastIdOf pr.2) :=
        MMData.get_last_scan_chunks {} hpr
      rw [hpr2] at hckl
      unfold MMData.resumeSkip
      rw [hckl, hlastid]
      show k - 1 + 1 = k
      omega
  refine ⟨?_, hskip, ?_⟩
  · have hres : (MMData.scan_dataset verdict hasSink ds l B
        (MMData.crashedState verdict hasSink ds l B c)).manifest.toFinset =
        (MMData.passedPairs verdict l).toFinset := by
      unfold MMData.scan_dataset
      rw [if_neg hnotc]
      show (MMData.scan_chunks verdict hasSink ds _ _).manifest.toFinset = _
      rw [MMData.manifest_toFinset_scan_chunks, List.enum_map_snd,
        hskip, hdrop, MMData.chunk_flatten, hmanifest]
      rw [← List.toFinset_append, ← MMData.passedPairs_append, hsplit]
    have hfull : (MMData.scan_dataset verdict hasSink ds l B
        {}).manifest.toFinset =
        (MMData.passedPairs verdict l).toFinset := by
      unfold MMData.scan_dataset
      rw [if_neg hnotc0]
      show (MMData.scan_chunks verdict hasSink ds _ _).manifest.toFinset = _
      rw [MMData.manifest_toFinset_scan_chunks, List.enum_map_snd]
      simp only [MMData.resumeSkip, MMData.get_last_sample_id, MMData.ckFind,
        List.find?_nil, List.drop_zero]
      rw [MMData.chunk_flatten]
      simp
    rw [hres, hfull]
  · intro s hs hv
    rw [htake] at hs
    have hmem : (s.meta.dataset_id, s.meta.sample_id) ∈
        MMData.passedPairs verdict P.flatten :=
      List.mem_map.mpr ⟨s, List.mem_filter.mpr ⟨hs, hv⟩, rfl⟩
    have := hmanifest ▸ List.mem_toFinset.mpr hmem
    exact List.mem_toFinset.mp this

/-- C1 (witness): `C1_resume_correctness` on a three-sample dataset with
batch size 2, crashed after the first batch's checkpoint, with a filter
rejecting the middle sample: the resumed manifest equals the
uninterrupted one and the resume skip count equals the two committed
samples. -/
theorem C1_resume_correctness_witness :
    (MMData.scan_dataset (fun s => s.meta.sample_id != 1) true "d"
        [MMData.Sample.text ⟨"d", 0, []⟩ "a",
          MMData.Sample.text ⟨"d", 1, []⟩ "b",
          MMData.Sample.text ⟨"d", 2, []⟩ "c"] 2
        (MMData.crashedState (fun s => s.meta.sample_id != 1) true "d"
          [MMData.Sample.text ⟨"d", 0, []⟩ "a",
            MMData.Sample.text ⟨"d", 1, []⟩ "b",
            MMData.Sample.text ⟨"d", 2, []⟩ "c"] 2 1)).manifest.toFinset =
        (MMData.scan_dataset (fun s => s.meta.sample_id != 1) true "d"
          [MMData.Sample.text ⟨"d", 0, []⟩ "a",
            MMData.Sample.text ⟨"d", 1, []⟩ "b",
            MMData.Sample.text ⟨"d", 2, []⟩ "c"] 2 {}).manifest.toFinset ∧
      MMData.resumeSkip
          (MMData.crashedState (fun s => s.meta.sample_id != 1) true "d"
            [MMData.Sample.text ⟨"d", 0, []⟩ "a",
              MMData.Sample.text ⟨"d", 1, []⟩ "b",
              MMData.Sample.text ⟨"d", 2, []⟩ "c"] 2 1).ckpt "d" =
        ((MMData.chunk 2
          [MMData.Sample.text ⟨"d", 0, []⟩ "a",
            MMData.Sample.text ⟨"d", 1, []⟩ "b",
            MMData.Sample.text ⟨"d", 2, []⟩ "c"]).take 1).flatten.length :=
  ⟨(C1_resume_correctness (fun s => s.meta.sample_id != 1) true "d"
      [MMData.Sample.text ⟨"d", 0, []⟩ "a",
        MMData.Sample.text ⟨"d", 1, []⟩ "b",
        MMData.Sample.text ⟨"d", 2, []⟩ "c"] 2 1 (by decide)).1,
    (C1_resume_correctness (fun s => s.meta.sample_id != 1) true "d"
      [MMData.Sample.text ⟨"d", 0, []⟩ "a",
        MMData.Sample.text ⟨"d", 1, []⟩ "b",
        MMData.Sample.text ⟨"d", 2, []⟩ "c"] 2 1 (by decide)).2.1⟩

/-- One worker evaluation over a freshly serialised sample: the verdict
carries the sample's own identifiers and the filter-chain outcome. -/
theorem MMData.process_sample_pipe_serialize {β : Type}
    (pilSave : MMData.PILImage → String → β) (pilOpen : β → MMData.PILImage)
    (convertRGB : MMData.PILImage → MMData.PILImage)
    (hRT : ∀ img fmt, ¬(MMData.jpegLike fmt ∧ img.mode = "RGBA") →
      pilOpen (pilSave img fmt) = img)
    (hconv : ∀ img, (convertRGB img).mode = "RGB")
    (fs : List (MMData.Sample → Except String Bool))
    (s : MMData.Sample) (hv : MMData.validSample s) :
    MMData.process_sample_pipe pilOpen fs
        (MMData.serialize pilSave convertRGB s) =
      .ok ⟨s.meta.dataset_id, s.meta.sample_id,
        MMData.passedOf fs (MMData.normalizeSample convertRGB s)⟩ := by
  unfold MMData.process_sample_pipe
  rw [MMData.to_sample_serialize pilSave pilOpen convertRGB hRT hconv s hv]
  cases heval : MMData.evalFilters fs (MMData.normalizeSample convertRGB s) with
  | error e => simp [heval, MMData.passedOf, MMData.meta_normalizeSample]
  | ok b => simp [heval, MMData.passedOf, MMData.meta_normalizeSample]

/-- C7: verdict alignment and commit order.  `process_batch` returns
exactly one verdict per input sample, in input order, each carrying the
sample's own `dataset_id` and `sample_id` and the filter-chain outcome;
and `_process_batch` inserts the accepted pairs into the manifest in
input order: for a batch `[a, b, c]` where `a` and `c` pass and are not
yet in the manifest, the manifest gains `a` before `c`. -/
theorem C7_order_preservation :
    (∀ (β : Type) (pilSave : MMData.PILImage → String → β)
        (pilOpen : β → MMData.PILImage)
        (convertRGB : MMData.PILImage → MMData.PILImage),
        (∀ img fmt, ¬(MMData.jpegLike fmt ∧ img.mode = "RGBA") →
          pilOpen (pilSave img fmt) = img) →
        (∀ img, (convertRGB img).mode = "RGB") →
        ∀ (fs : List (MMData.Sample → Except String Bool))
          (batch : List MMData.Sample),
          (∀ s ∈ batch, MMData.validSample s) →
          MMData.process_batch_pool pilSave convertRGB pilOpen fs batch =
            .ok (batch.map (fun s =>
              ⟨s.meta.dataset_id, s.meta.sample_id,
                MMData.passedOf fs
                  (MMData.normalizeSample convertRGB s)⟩))) ∧
      (∀ (verdict : MMData.Sample → Bool) (hasSink : Bool) (i : Nat)
        (st : MMData.DrvState) (a b c : MMData.Sample),
        verdict a = true → verdict b = false → verdict c = true →
        (a.meta.dataset_id, a.meta.sample_id) ∉ st.manifest →
        (c.meta.dataset_id, c.meta.sample_id) ∉ st.manifest →
        (a.meta.dataset_id, a.meta.sample_id) ≠
          (c.meta.dataset_id, c.meta.sample_id) →
        (MMData.process_batchD verdict hasSink i st [a, b, c]).manifest =
          st.manifest ++ [(a.meta.dataset_id, a.meta.sample_id),
            (c.meta.dataset_id, c.meta.sample_id)]) := by
  constructor
  · intro β pilSave pilOpen convertRGB hRT hconv fs batch hv
    induction batch with
    | nil => rfl
    | cons s rest ih =>
      have hs := MMData.process_sample_pipe_serialize pilSave pilOpen
        convertRGB hRT hconv fs s (hv s (List.mem_cons_self s rest))
      have ihr := ih (fun x hx => hv x (List.mem_cons_of_mem s hx))
      show (List.map (MMData.serialize pilSave convertRGB)
        (s :: rest)).mapM (MMData.process_sample_pipe pilOpen fs) = _
      rw [List.map_cons, List.mapM_cons, hs]
      have : (List.map (MMData.serialize pilSave convertRGB) rest).mapM
          (MMData.process_sample_pipe pilOpen fs) =
          .ok (rest.map (fun s =>
            (⟨s.meta.dataset_id, s.meta.sample_id,
              MMData.passedOf fs (MMData.normalizeSample convertRGB s)⟩ :
              MMData.FilterResult))) := ihr
      rw [this]
      rfl
  · intro verdict hasSink i st a b c hva hvb hvc hna hnc hac
    have hentries : MMData.passedEntries verdict [a, b, c] =
        [(a.meta.dataset_id, a.meta.sample_id),
          (c.meta.dataset_id, c.meta.sample_id)] := by
      simp [MMData.passedEntries, List.filter, hva, hvb, hvc]
    unfold MMData.process_batchD
    rw [hentries]
    simp only [List.isEmpty_cons, if_false, Bool.false_eq_true]
    have h1 : MMData.insertIgnore st.manifest
        (a.meta.dataset_id, a.meta.sample_id) =
        st.manifest ++ [(a.meta.dataset_id, a.meta.sample_id)] := by
      simp [MMData.insertIgnore, hna]
    have h2 : MMData.insertIgnore
        (st.manifest ++ [(a.meta.dataset_id, a.meta.sample_id)])
        (c.meta.dataset_id, c.meta.sample_id) =
        (st.manifest ++ [(a.meta.dataset_id, a.meta.sample_id)]) ++
          [(c.meta.dataset_id, c.meta.sample_id)] := by
      have : (c.meta.dataset_id, c.meta.sample_id) ∉
          st.manifest ++ [(a.meta.dataset_id, a.meta.sample_id)] := by
        simp only [List.mem_append, List.mem_singleton]
        rintro (h | h)
        · exact hnc h
        · exact hac h.symm
      simp [MMData.insertIgnore, this]
    show (MMData.add_batch st.manifest _) = _
    unfold MMData.add_batch
    rw [List.foldl_cons, h1, List.foldl_cons, h2]
    simp

/-- C7 (witness): `C7_order_preservation` at concrete inputs — a
one-sample batch through the pool with an empty filter chain, and a
three-sample driver batch whose middle sample is rejected: the manifest
gains the first and third pairs in that order. -/
theorem C7_order_preservation_witness :
    MMData.process_batch_pool (β := MMData.PILImage) (fun img _ => img)
        (fun img => { img with mode := "RGB" }) id []
        [MMData.Sample.text ⟨"d", 0, []⟩ "x"] =
      .ok [⟨"d", 0, true⟩] ∧
      (MMData.process_batchD (fun s => s.meta.sample_id != 1) false 0 {}
        [MMData.Sample.text ⟨"d", 0, []⟩ "a",
          MMData.Sample.text ⟨"d", 1, []⟩ "b",
          MMData.Sample.text ⟨"d", 2, []⟩ "c"]).manifest =
        [("d", 0), ("d", 2)] := by
  constructor
  · have h := C7_order_preservation.1 MMData.PILImage (fun img _ => img) id
      (fun img => { img with mode := "RGB" }) (fun _ _ _ => rfl)
      (fun _ => rfl) [] [MMData.Sample.text ⟨"d", 0, []⟩ "x"]
      (by
        intro s hs
        rcases List.mem_singleton.mp hs with rfl
        trivial)
    simpa using h
  · have h := C7_order_preservation.2 (fun s => s.meta.sample_id != 1)
      false 0 {} (MMData.Sample.text ⟨"d", 0, []⟩ "a")
      (MMData.Sample.text ⟨"d", 1, []⟩ "b")
      (MMData.Sample.text ⟨"d", 2, []⟩ "c")
      rfl rfl rfl (by simp) (by simp) (by decide)
    simpa using h
